import Mathlib

/-!
# etcd-demo: the Turing-award registry over a coordination store

Shallow embedding of `v3/main.go` and `v2/main.go`.  The wrappers of the
repository (`setWinner`, `getWinner`, `updateWinner`, ...) are translated
statement by statement into a small state-and-panic monad `Go`.  The etcd
client they call is an external collaborator; its behaviour is modelled from
the store contract of the specification (sections 3, 4 and 7).
-/

namespace EtcdDemo

/-! ## Go runtime: strings, durations, errors -/

/-- The constant `turingPrefix` of both programs. -/
def turingPrefix : String := "/turing-awards/"

/-- Error values, after the taxonomy of section 7 of the specification, and
`NotAFile`, the refusal of the v2 keys API to treat a directory as a key.
A Go `error` is an `Option GoError`, `none` being `nil`. -/
inductive GoError where
  | NotFound
  | LeaseNotFound
  | CasFailed (current : Option String)
  | Overrun
  | Unavailable
  | NotAFile
  deriving DecidableEq, Repr

/-- The text `%v` prints for an error. -/
def GoError.text : GoError → String
  | .NotFound => "NotFound"
  | .LeaseNotFound => "LeaseNotFound"
  | .CasFailed _ => "CasFailed"
  | .Overrun => "Overrun"
  | .Unavailable => "Unavailable"
  | .NotAFile => "NotAFile"

/-- Go `time.Second`, a `time.Duration` counted in nanoseconds. -/
def Second : Int := 1000000000

/-- Go `time.Millisecond`. -/
def Millisecond : Int := 1000000

/-- Two's-complement wrap of a 64-bit signed product or sum. -/
def wrapInt64 (x : Int) : Int := (x + 2 ^ 63) % 2 ^ 64 - 2 ^ 63

/-- Tokens of a character list cut at every occurrence of `sep`. -/
def splitChars (sep : Char) : List Char → List (List Char)
  | [] => [[]]
  | c :: cs =>
    if c = sep then [] :: splitChars sep cs
    else
      match splitChars sep cs with
      | [] => [[c]]
      | t :: ts => (c :: t) :: ts

/-- Go `strings.Split(s, sep)` for a one-character separator (the programs
only ever pass `"/"`). -/
def Split (s : String) (sep : Char) : List String :=
  (splitChars sep s.data).map String.mk

/-- The last path segment of a key: the characters that follow the last '/' of
the key (the whole key when it has none).  It is stated apart from `Split`, to
compare with the token the programs select. -/
def lastSegment (key : String) : String :=
  ⟨(key.data.reverse.takeWhile (fun c => c != '/')).reverse⟩

/-- Lexicographic order of keys, character by character. -/
def keyLe : List Char → List Char → Bool
  | [], _ => true
  | _ :: _, [] => false
  | a :: as, b :: bs => a.toNat < b.toNat || (a.toNat == b.toNat && keyLe as bs)

/-! ## The coordination store -/

/-- Modelled from the spec: the `Entry` record of section 3 (the store itself
is the external etcd server, absent from the repository). -/
structure Entry where
  key : String
  value : String
  revision : Nat
  leaseID : Option Nat
  deriving DecidableEq, Repr

/-- Modelled from the spec: the `Lease` record of section 3; `boundKeys` is
the set of entries carrying `leaseID`, read off the entry store. -/
structure Lease where
  leaseID : Nat
  ttl : Int
  deadline : Int
  deriving DecidableEq, Repr

/-- Kind of a watch event. -/
inductive EventType where
  | PUT
  | DELETE
  deriving DecidableEq, Repr

/-- Modelled from the spec: the `WatchEvent` record of section 3. -/
structure WatchEvent where
  type : EventType
  key : String
  value : String
  revision : Nat
  deriving DecidableEq, Repr

/-- Modelled from the spec: one namespace of the external store: entry store,
lease manager, revision clock, the ordered log of emitted watch events, the
wall clock in nanoseconds, and whether the backing store can be reached (this
does not change during a run). -/
structure Store where
  entries : List Entry
  leases : List Lease
  revision : Nat
  nextLeaseID : Nat
  now : Int
  events : List WatchEvent
  reachable : Bool
  deriving DecidableEq, Repr

/-- Modelled from the spec: `get(key)` of section 4.1 on a reachable store. -/
def Store.find (s : Store) (key : String) : Option Entry :=
  s.entries.find? (fun e => e.key == key)

/-- Modelled from the spec: the value currently stored at `key`, if any. -/
def Store.valueAt (s : Store) (key : String) : Option String :=
  (s.find key).map (fun e => e.value)

/-- Modelled from the spec: the commit of a `put` (section 4.1): upsert,
next revision, `PUT` event. -/
def Store.commitPut (s : Store) (key value : String) (lease : Option Nat) : Store :=
  { s with
    entries := s.entries.filter (fun e => e.key != key) ++ [⟨key, value, s.revision + 1, lease⟩]
    revision := s.revision + 1
    events := s.events ++ [⟨.PUT, key, value, s.revision + 1⟩] }

/-- Modelled from the spec: the commit of a `delete` of a present key
(section 4.1): entry removed, next revision, `DELETE` event. -/
def Store.commitDelete (s : Store) (key : String) : Store :=
  { s with
    entries := s.entries.filter (fun e => e.key != key)
    revision := s.revision + 1
    events := s.events ++ [⟨.DELETE, key, "", s.revision + 1⟩] }

/-- Modelled from the spec: a lease is live while it is known and its
deadline has not passed (section 4.3). -/
def Store.leaseLive (s : Store) (id : Nat) : Bool :=
  s.leases.any (fun l => l.leaseID == id && decide (s.now < l.deadline))

/-- Modelled from the spec: a lease identifier that no lease of the store
carries: the next identifier of the lease manager, or one past the largest in
use. -/
def Store.freshLeaseID (s : Store) : Nat :=
  s.leases.foldl (fun m l => max m (l.leaseID + 1)) s.nextLeaseID

/-- Modelled from the spec: `grant(ttl)` of section 4.3, `ttl` in nanoseconds:
a fresh lease with `deadline = now + ttl`. -/
def Store.grant (s : Store) (ttl : Int) : Nat × Store :=
  (s.freshLeaseID,
    { s with
      leases := s.leases ++ [⟨s.freshLeaseID, ttl, s.now + ttl⟩]
      nextLeaseID := s.freshLeaseID + 1 })

/-- Modelled from the spec: the keys an expiry sweep has to reap: those bound
to a lease whose deadline has passed. -/
def Store.expiredKeys (s : Store) : List String :=
  (s.entries.filter (fun e =>
    match e.leaseID with
    | some id => s.leases.any (fun l => l.leaseID == id && decide (l.deadline ≤ s.now))
    | none => false)).map (fun e => e.key)

/-- Modelled from the spec: the expiry sweep of section 4.3: every key bound
to an expired lease goes through the delete path, then the lease is dropped. -/
def Store.sweep (s : Store) : Store :=
  let s1 := s.expiredKeys.foldl (fun acc k => acc.commitDelete k) s
  { s1 with leases := s1.leases.filter (fun l => decide (s.now < l.deadline)) }

/-- Modelled from the spec: the passage of `d` nanoseconds with the background
sweep keeping up (section 4.3: expiry at or after the deadline). -/
def Store.advance (s : Store) (d : Int) : Store :=
  ({ s with now := s.now + d } : Store).sweep

/-! ## The `Go` monad: state, console output, runtime panics -/

/-- What a run of the program can see and change: the store behind the global
`client` and the text written by `fmt.Printf`. -/
structure World where
  store : Store
  stdout : List String
  deriving DecidableEq, Repr

/-- Result of running a Go function: it returns a value, or the goroutine
panics (nil dereference, index out of range). -/
inductive Exec (α : Type) where
  | done (val : α) (w : World)
  | panicked (w : World)
  deriving DecidableEq, Repr

/-- A Go function body over the world. -/
def Go (α : Type) : Type := World → Exec α

/-- Sequencing of Go statements; a panic skips the rest. -/
def Go.bind {α β : Type} (m : Go α) (f : α → Go β) : Go β :=
  fun w =>
    match m w with
    | .done a w1 => f a w1
    | .panicked w1 => .panicked w1

/-- A statement that only yields a value. -/
def Go.pure {α : Type} (a : α) : Go α := fun w => .done a w

instance : Monad Go where
  pure := Go.pure
  bind := Go.bind

/-- Go `fmt.Printf` with the arguments already formatted. -/
def Printf (s : String) : Go Unit :=
  fun w => .done () { w with stdout := w.stdout ++ [s] }

/-- Dereference of a pointer: a nil pointer panics. -/
def deref {α : Type} (p : Option α) : Go α :=
  fun w =>
    match p with
    | some a => .done a w
    | none => .panicked w

/-- Go slice indexing `xs[i]`: out of range panics. -/
def index {α : Type} (xs : List α) (i : Int) : Go α :=
  fun w =>
    if i < 0 then .panicked w
    else
      match xs[i.toNat]? with
      | some a => .done a w
      | none => .panicked w

/-- Go `time.Sleep(d)`: returns at once for `d ≤ 0`. -/
def Sleep (d : Int) : Go Unit :=
  fun w => .done () (if d ≤ 0 then w else { w with store := w.store.advance d })

/-- The text `%v` prints for a Go `error`. -/
def fmtErr : Option GoError → String
  | some e => e.text
  | none => "<nil>"

/-- A Go `for _, x := range xs` loop. -/
def forEach {α : Type} : List α → (α → Go Unit) → Go Unit
  | [], _ => pure ()
  | x :: xs, body => do
    body x
    forEach xs body

/-- Go `%q` of a string that has no character to escape. -/
def quote (s : String) : String := "\"" ++ s ++ "\""

/-- Consecutive runs of a list, of the given lengths. -/
def chunks {α : Type} : List Nat → List α → List (List α)
  | [], _ => []
  | n :: ns, xs => xs.take n :: chunks ns (xs.drop n)

/-! ## `v3/main.go` -/

namespace V3

/-- A `mvccpb.KeyValue` as the program reads it. -/
structure KeyValue where
  Key : String
  Value : String
  deriving DecidableEq, Repr

/-- The `clientv3.PutResponse`. -/
structure PutResponse where
  Revision : Nat
  deriving DecidableEq, Repr

/-- The `clientv3.LeaseGrantResponse`. -/
structure LeaseGrantResponse where
  ID : Nat
  TTL : Int
  deriving DecidableEq, Repr

/-- The `clientv3.GetResponse`. -/
structure GetResponse where
  Kvs : List KeyValue
  deriving DecidableEq, Repr

/-- The `clientv3.DeleteResponse`. -/
structure DeleteResponse where
  Deleted : Int
  deriving DecidableEq, Repr

/-- The `clientv3.TxnResponse`. -/
structure TxnResponse where
  Succeeded : Bool
  deriving DecidableEq, Repr

/-- Modelled from the spec: `client.Put(ctx, key, val)` and
`client.Put(ctx, key, val, etcd.WithLease(id))`, the `put` and `putWithLease`
of section 4.1.  A failed call returns a nil response and the error. -/
def client.Put (key val : String) (lease : Option Nat) : Go (Option PutResponse × Option GoError) :=
  fun w =>
    if w.store.reachable then
      match lease with
      | none =>
        .done (some ⟨w.store.revision + 1⟩, none) { w with store := w.store.commitPut key val none }
      | some id =>
        if w.store.leaseLive id then
          .done (some ⟨w.store.revision + 1⟩, none)
            { w with store := w.store.commitPut key val (some id) }
        else .done (none, some .LeaseNotFound) w
    else .done (none, some .Unavailable) w

/-- Modelled from the spec: the minimal time-to-live of a lease, in seconds.
Section 4.3 leaves it to the implementation; the note in `demoLease` gives it
as 5 seconds. -/
def minLeaseTTL : Int := 5

/-- Modelled from the spec: `client.Grant(ctx, ttl)`, the `grantLease` of
section 4.3 with `ttl` in seconds; a `ttl` below the minimum is granted the
minimum. -/
def client.Grant (ttl : Int) : Go (Option LeaseGrantResponse × Option GoError) :=
  fun w =>
    if w.store.reachable then
      .done (some ⟨(w.store.grant (max ttl minLeaseTTL * Second)).1, max ttl minLeaseTTL⟩, none)
        { w with store := (w.store.grant (max ttl minLeaseTTL * Second)).2 }
    else .done (none, some .Unavailable) w

/-- Modelled from the spec: `client.Get(ctx, key)` (`withPrefix = false`, the
`get` of section 4.1, an absent key giving an empty `Kvs`) and
`client.Get(ctx, key, etcd.WithPrefix())` (`getPrefix`, ordered by key). -/
def client.Get (key : String) (withPrefix : Bool) : Go (Option GetResponse × Option GoError) :=
  fun w =>
    if w.store.reachable then
      if withPrefix then
        .done (some ⟨((w.store.entries.filter (fun e => key.data.isPrefixOf e.key.data)).insertionSort
          (fun a b => keyLe a.key.data b.key.data = true)).map (fun e => ⟨e.key, e.value⟩)⟩, none) w
      else
        .done (some ⟨(w.store.find key).toList.map (fun e => ⟨e.key, e.value⟩)⟩, none) w
    else .done (none, some .Unavailable) w

/-- Modelled from the spec: `client.Delete(ctx, key)`, the `delete` of
section 4.1; deleting an absent key is not an error and changes nothing. -/
def client.Delete (key : String) : Go (Option DeleteResponse × Option GoError) :=
  fun w =>
    if w.store.reachable then
      match w.store.find key with
      | some _ => .done (some ⟨1⟩, none) { w with store := w.store.commitDelete key }
      | none => .done (some ⟨0⟩, none) w
    else .done (none, some .Unavailable) w

/-- Modelled from the spec:
`client.Txn(ctx).If(etcd.Compare(etcd.Value(key), "=", prev)).Then(etcd.OpPut(key, val)).Commit()`,
the `compareAndSwap` of section 4.2.  A compare that does not hold is not an
error of the call: the response comes back with `Succeeded = false`. -/
def client.TxnIfValueEqThenPut (key prev val : String) : Go (Option TxnResponse × Option GoError) :=
  fun w =>
    if w.store.reachable then
      if w.store.valueAt key = some prev then
        .done (some ⟨true⟩, none) { w with store := w.store.commitPut key val none }
      else .done (some ⟨false⟩, none) w
    else .done (none, some .Unavailable) w

/-- The function `setWinner` of `v3/main.go`. -/
def setWinner (who what : String) : Go (Option GoError) := do
  let key := turingPrefix ++ who
  Printf ("Set " ++ key ++ " to [" ++ what ++ "]\n")
  let (_, err) ← client.Put key what none
  if err.isSome then
    Printf ("Put error: " ++ fmtErr err)
  pure err

/-- The function `setWinnerWithLease` of `v3/main.go`. -/
def setWinnerWithLease (who what : String) (ttl : Int) : Go (Option GoError) := do
  let key := turingPrefix ++ who
  Printf ("Set " ++ key ++ " to [" ++ what ++ "] with lease " ++ toString ttl ++ "\n")
  let (resp, err) ← client.Grant ttl
  if err.isSome then
    Printf "Unable to create lease"
  let r ← deref resp
  let (_, err) ← client.Put key what (some r.ID)
  if err.isSome then
    Printf ("Put error: " ++ fmtErr err)
  pure err

/-- The function `deleteWinner` of `v3/main.go`. -/
def deleteWinner (who : String) : Go (Option GoError) := do
  let key := turingPrefix ++ who
  Printf ("Delete " ++ key ++ " \n")
  let (_, err) ← client.Delete key
  if err.isSome then
    Printf ("Delete error: " ++ fmtErr err)
  pure err

/-- The function `getWinner` of `v3/main.go`. -/
def getWinner (who : String) : Go (Option GoError) := do
  let key := turingPrefix ++ who
  let (resp, err) ← client.Get key false
  if err.isSome then
    pure err
  else
    let r ← deref resp
    if r.Kvs.length = 0 then
      Printf (who ++ " does not win Turing Awards\n")
      pure none
    else
      let kv ← index r.Kvs 0
      let tokens := Split kv.Key '/'
      let who ← index tokens ((tokens.length : Int) - 1)
      let kv ← index r.Kvs 0
      let what := kv.Value
      Printf (who ++ " won turing awards for " ++ what ++ "\n")
      pure none

/-- The function `getWinners` of `v3/main.go`. -/
def getWinners : Go (Option GoError) := do
  let key := turingPrefix
  let (resp, err) ← client.Get key true
  if err.isSome then
    pure err
  else
    let r ← deref resp
    forEach r.Kvs (fun ev => Printf (ev.Key ++ " won turing awards for " ++ ev.Value ++ "\n"))
    pure none

/-- The function `updateWinner` of `v3/main.go`. -/
def updateWinner (who prev new : String) : Go (Option GoError) := do
  let key := turingPrefix ++ who
  Printf ("Update " ++ key ++ " to [" ++ new ++ "]\n")
  let (resp, err) ← client.TxnIfValueEqThenPut key prev new
  if err.isSome then
    Printf ("Set value error: " ++ fmtErr err)
  let r ← deref resp
  if !r.Succeeded then
    Printf "Set value failed: value compare error\n"
  pure err

/-- A `clientv3.Event` as the program prints it (`Type_` is its field
`Type`). -/
structure Event where
  Type_ : String
  Kv : KeyValue
  deriving DecidableEq, Repr

/-- A `clientv3.WatchResponse`. -/
structure WatchResponse where
  Events : List Event
  deriving DecidableEq, Repr

/-- Modelled from the spec: the events `client.Watch(ctx, key, etcd.WithPrefix())`
delivers when it was called with `cursor` events in the log of the store: every
later event whose key extends `key`, in the order of emission (the
`subscribe` of section 4.4). -/
def client.Watch (key : String) (cursor : Nat) (s : Store) : List Event :=
  ((s.events.drop cursor).filter (fun ev => key.data.isPrefixOf ev.key.data)).map
    (fun ev =>
      match ev.type with
      | .PUT => ⟨"PUT", ⟨ev.key, ev.value⟩⟩
      | .DELETE => ⟨"DELETE", ⟨ev.key, ev.value⟩⟩)

/-- What one `select` of `watchWinners` receives: a response from the watch
channel, or the signal on `closeCh`. -/
inductive Selected where
  | result (resp : WatchResponse)
  | close
  deriving DecidableEq, Repr

/-- The line `watchWinners` prints for one event:
`"Event received: %s %q: %q\n"` of the type, the key and the value. -/
def watchLine (event : Event) : String :=
  "Event received: " ++ event.Type_ ++ " " ++ quote event.Kv.Key ++ ": "
    ++ quote event.Kv.Value ++ "\n"

/-- The `for`/`select` loop of `watchWinners` in `v3/main.go`, on what its
successive `select`s receive.  It yields `true` when it returns on `closeCh`,
and `false` when the list runs out with the goroutine still waiting in
`select`. -/
def selectLoop : List Selected → Go Bool
  | [] => pure false
  | .close :: _ => pure true
  | .result resp :: rest => do
    forEach resp.Events (fun event => Printf (watchLine event))
    selectLoop rest

/-- The function `watchWinners` of `v3/main.go` under one interleaving with
the rest of the program: `cursor` is the length of the event log when
`client.Watch` was called and `s` the store behind the watch; `batches` gives
the sizes of the responses the loop receives from `resultCh`, one after
another, before `closeCh` is selected, and `closed` tells whether `closeCh` is
signalled at all. -/
def watchWinners (cursor : Nat) (s : Store) (batches : List Nat) (closed : Bool) : Go Bool :=
  let key := turingPrefix
  let resultCh := client.Watch key cursor s
  selectLoop ((chunks batches resultCh).map (fun evs => .result ⟨evs⟩)
    ++ if closed then [.close] else [])

/-- The type `winner` of both programs. -/
structure winner where
  name : String
  what : String
  deriving DecidableEq, Repr

/-- The loop `for _, w := range winners` of `demoWatch` and `demoPrefix`: it
returns the first error of `setWinner`. -/
def setWinners : List winner → Go (Option GoError)
  | [] => pure none
  | w :: ws => do
    let err ← setWinner w.name w.what
    if err.isSome then
      pure err
    else
      setWinners ws

/-- What the watcher goroutine of `demoWatch` prints, and whether it has
returned: `watchWinners` run on a console of its own, since the lines of the
two goroutines interleave. -/
def runWatcher (cursor : Nat) (s : Store) (batches : List Nat) (closed : Bool) :
    Bool × List String :=
  match watchWinners cursor s batches closed ⟨s, []⟩ with
  | .done returned w => (returned, w.stdout)
  | .panicked w => (false, w.stdout)

/-- The function `demoWatch` of `v3/main.go` under one interleaving of its two
goroutines.  The watch of the goroutine is in place when the 500 ms wait
starts (the wait is there for it); `batches` gives the sizes of the responses
the `select` loop has received, one after another, when it selects `closeCh`.
The result is the error of `demoWatch` together with whether the goroutine
returned and what it printed.  When `demoWatch` returns early on an error,
`closeCh` is never signalled and the goroutine stays in its loop. -/
def demoWatch (batches : List Nat) : Go (Option GoError × Bool × List String) := do
  let cursor ← (fun w => .done w.store.events.length w)
  let winners : List winner :=
    [⟨"Ken-Thompson", "Unix operating system"⟩,
     ⟨"Alan-Key", "Object-Oriented Programming Languages"⟩,
     ⟨"cizixs", "nothing"⟩]
  Sleep (Millisecond * 500)
  let err ← setWinners winners
  if err.isSome then
    let s ← (fun w => .done w.store w)
    pure (err, runWatcher cursor s batches false)
  else
    let _ ← deleteWinner "cizixs"
    let s ← (fun w => .done w.store w)
    pure (none, runWatcher cursor s batches true)

/-- The function `demoGetSet` of `v3/main.go`. -/
def demoGetSet : Go (Option GoError) := do
  let who := "john-mccarthy"
  let err ← setWinner who "Artificial Interlligence"
  if err.isSome then
    pure err
  else
    let err ← getWinner who
    if err.isSome then
      pure err
    else
      let err ← deleteWinner who
      if err.isSome then
        pure err
      else
        let err ← getWinner who
        if err.isSome then
          pure err
        else
          pure none

/-- The function `demoTransaction` of `v3/main.go`. -/
def demoTransaction : Go (Option GoError) := do
  let who := "Tim-Berners-Lee"
  let err ← setWinner who "WWW"
  if err.isSome then
    pure err
  else
    let _ ← updateWinner who "lisp" "Inventing World Wide Web"
    let _ ← getWinner who
    let err ← updateWinner who "WWW" "Inventing World Wide Web"
    if err.isSome then
      pure err
    else
      getWinner who

/-- The function `demoLease` of `v3/main.go`. -/
def demoLease : Go (Option GoError) := do
  let err ← setWinnerWithLease "cizixs" "nothing" 5
  if err.isSome then
    pure err
  else
    let err ← getWinner "cizixs"
    if err.isSome then
      pure err
    else
      Printf "wait for lease to expire...\n"
      Sleep (7 * Second)
      getWinner "cizixs"

end V3

/-! ## `v2/main.go` -/

namespace V2

/-- A child of a directory node, as `getWinners` reads it. -/
structure ChildNode where
  Key : String
  Value : String
  deriving DecidableEq, Repr

/-- A `client.Node` as the program reads it. -/
structure Node where
  Key : String
  Value : String
  ModifiedIndex : Nat
  Nodes : List ChildNode
  deriving DecidableEq, Repr

/-- The `client.Response` of the keys API. -/
structure Response where
  Action : String
  Node : Node
  deriving DecidableEq, Repr

/-- The fields of `client.SetOptions` the program sets; a field left out of
the Go literal has its zero value. -/
structure SetOptions where
  PrevValue : String := ""
  TTL : Int := 0
  deriving DecidableEq, Repr

/-- Modelled from the spec: the prefix of the keys below `key` in the v2 key
space, for the `getPrefix` of section 4.1: `key` followed by a '/', unless it
already ends in one. -/
def dirPath (key : String) : List Char :=
  if key.data.getLast? = some '/' then key.data else key.data ++ ['/']

/-- Modelled from the spec: the entries stored below `key` (the `getPrefix` of
section 4.1 on the path of `key`, `key` itself left out).  A key with entries
below it is a directory of the v2 key space: `getWinners` reads the nodes
below `turingPrefix`, and `deleteAllWinners` needs the `Dir` option to delete
it. -/
def below (s : Store) (key : String) : List Entry :=
  s.entries.filter (fun e => e.key != key && (dirPath key).isPrefixOf e.key.data)

/-- Modelled from the spec: `client.Set(ctx, key, value, &opts)`.  One call
serves both wrappers: with the zero `PrevValue` (as `setWinner` passes it) it
is the unconditional `put` of section 4.1, with any other `PrevValue` the
`compareAndSwap` of section 4.2, whose failure is an error of the call; a
positive `TTL` binds the key to a lease of that length granted on the spot
(sections 3 and 4.3).  A directory is not written. -/
def client.Set (key value : String) (opts : SetOptions) : Go (Option Response × Option GoError) :=
  fun w =>
    if w.store.reachable then
      if below w.store key ≠ [] then
        .done (none, some .NotAFile) w
      else if opts.PrevValue ≠ "" ∧ w.store.valueAt key ≠ some opts.PrevValue then
        .done (none, some (.CasFailed (w.store.valueAt key))) w
      else if 0 < opts.TTL then
        .done (some ⟨"set", ⟨key, value, w.store.revision + 1, []⟩⟩, none)
          { w with store :=
              (w.store.grant opts.TTL).2.commitPut key value (some (w.store.grant opts.TTL).1) }
      else
        .done (some ⟨"set", ⟨key, value, w.store.revision + 1, []⟩⟩, none)
          { w with store := w.store.commitPut key value none }
    else .done (none, some .Unavailable) w

/-- Modelled from the spec: `client.Get(ctx, key, nil)`, the `get` of section
4.1: an absent key is the error `NotFound`.  The node of a directory lists the
entries below it, ordered by key (`getPrefix`). -/
def client.Get (key : String) : Go (Option Response × Option GoError) :=
  fun w =>
    if w.store.reachable then
      match below w.store key with
      | c :: cs =>
        .done (some ⟨"get", ⟨key, "", 0,
          ((c :: cs).insertionSort (fun a b => keyLe a.key.data b.key.data = true)).map
            (fun e => ⟨e.key, e.value⟩)⟩⟩, none) w
      | [] =>
        match w.store.find key with
        | some e => .done (some ⟨"get", ⟨e.key, e.value, e.revision, []⟩⟩, none) w
        | none => .done (none, some .NotFound) w
    else .done (none, some .Unavailable) w

/-- Modelled from the spec: `client.Delete(ctx, key, nil)`, the `delete` of
section 4.1; an absent key is the error `NotFound`, and a directory is not
deleted without the options for it. -/
def client.Delete (key : String) : Go (Option Response × Option GoError) :=
  fun w =>
    if w.store.reachable then
      match below w.store key with
      | _ :: _ => .done (none, some .NotAFile) w
      | [] =>
        match w.store.find key with
        | some e =>
          .done (some ⟨"delete", ⟨e.key, "", w.store.revision + 1, []⟩⟩, none)
            { w with store := w.store.commitDelete key }
        | none => .done (none, some .NotFound) w
    else .done (none, some .Unavailable) w

/-- Go `etcd.IsKeyNotFound(err)`. -/
def IsKeyNotFound (err : Option GoError) : Bool :=
  err = some .NotFound

/-- A `client.Watcher`: the results its successive `Next` calls deliver, and
how many of them have been taken. -/
structure Watcher where
  results : Nat → Option Response × Option GoError
  taken : Nat

/-- Modelled from the spec: `client.Watcher(key, &opts)` on the stream of
results the subscription of section 4.4 will deliver. -/
def client.Watcher (results : Nat → Option Response × Option GoError) : Watcher :=
  ⟨results, 0⟩

/-- Modelled from the spec: `watcher.Next(ctx)`: the next result of the
stream, together with the watcher after the call. -/
def Watcher.Next (wt : Watcher) : Go ((Option Response × Option GoError) × Watcher) :=
  pure (wt.results wt.taken, { wt with taken := wt.taken + 1 })

/-- The function `setWinner` of `v2/main.go`. -/
def setWinner (who what : String) (ttl : Int) : Go (Option GoError) := do
  let key := turingPrefix ++ who
  Printf ("Set " ++ key ++ " to [" ++ what ++ "]\n")
  let (_, err) ← client.Set key what { TTL := wrapInt64 (ttl * Second) }
  if err.isSome then
    Printf ("Set value error: " ++ fmtErr err)
    pure err
  else
    pure none

/-- The function `getWinner` of `v2/main.go`. -/
def getWinner (who : String) : Go (Option GoError) := do
  let key := turingPrefix ++ who
  let (resp, err) ← client.Get key
  if err.isSome then
    if IsKeyNotFound err then
      Printf (who ++ " does not win Turing Awards\n")
      pure none
    else
      pure err
  else
    let r ← deref resp
    let tokens := Split r.Node.Key '/'
    let who ← index tokens ((tokens.length : Int) - 1)
    let what := r.Node.Value
    Printf (who ++ " won turing awards for " ++ what ++ "\n")
    pure none

/-- The function `getWinners` of `v2/main.go`. -/
def getWinners : Go (Option GoError) := do
  let key := turingPrefix
  let (resp, err) ← client.Get key
  if err.isSome then
    if IsKeyNotFound err then
      Printf "There is no data yet."
      pure none
    else
      pure err
  else
    let r ← deref resp
    forEach r.Node.Nodes (fun node => do
      let tokens := Split node.Key '/'
      let who ← index tokens ((tokens.length : Int) - 1)
      let what := node.Value
      Printf (who ++ " won turing awards for " ++ what ++ "\n"))
    pure none

/-- The function `updateWinner` of `v2/main.go`. -/
def updateWinner (who prev new : String) : Go (Option GoError) := do
  let key := turingPrefix ++ who
  Printf ("Update " ++ key ++ " to [" ++ new ++ "]\n")
  let (_, err) ← client.Set key new { PrevValue := prev }
  if err.isSome then
    Printf ("Set value error: " ++ fmtErr err)
    pure err
  else
    pure none

/-- The function `deleteWinner` of `v2/main.go`. -/
def deleteWinner (who : String) : Go (Option GoError) := do
  let key := "/turing-awards/" ++ who
  Printf ("Delete " ++ key ++ "\n")
  let (_, err) ← client.Delete key
  if err.isSome then
    Printf ("Delete value error: " ++ fmtErr err)
    pure err
  else
    pure none

/-- The line `watchWinners` prints for one result:
`"%s at %s, modified index: %d\n"` of the action, the key and the index. -/
def watchLine (r : Response) : String :=
  r.Action ++ " at " ++ r.Node.Key ++ ", modified index: " ++ toString r.Node.ModifiedIndex ++ "\n"

/-- The `for` loop of `watchWinners` in `v2/main.go`, entered with the current
`count` and watcher; it returns the error together with the watcher as the
loop left it. -/
def watchLoop (num count : Int) (watcher : Watcher) : Go (Option GoError × Watcher) := do
  let ((resp, err), watcher) ← watcher.Next
  if err.isSome then
    Printf ("watch error: " ++ fmtErr err)
    pure (err, watcher)
  else
    let r ← deref resp
    Printf (watchLine r)
    let count := count + 1
    if _h : count ≥ num then
      pure (none, watcher)
    else
      watchLoop num count watcher
termination_by (num - count).toNat
decreasing_by omega

/-- The function `watchWinners` of `v2/main.go`, on the results its watcher
will deliver. -/
def watchWinners (num : Int) (results : Nat → Option Response × Option GoError) :
    Go (Option GoError × Watcher) := do
  Printf "Watch all winners\n"
  let watcher := client.Watcher results
  let count := 0
  watchLoop num count watcher

/-- The function `demoTTL` of `v2/main.go`. -/
def demoTTL : Go Unit := do
  let err ← setWinner "cizixs" "nothing" 1
  if err.isSome then
    pure ()
  else
    let err ← getWinner "cizixs"
    if err.isSome then
      pure ()
    else
      Sleep (2 * Second)
      let err ← getWinner "cizixs"
      if err.isSome then
        pure ()
      else
        pure ()

end V2

/-! ## Concrete worlds used to run the programs -/

/-- A reachable, empty store at time zero and an empty console. -/
def emptyWorld : World :=
  ⟨⟨[], [], 0, 1, 0, [], true⟩, []⟩

/-- The empty store when the backing store cannot be reached. -/
def downWorld : World :=
  ⟨⟨[], [], 0, 1, 0, [], false⟩, []⟩

/-- The store right after `setWinner("Tim-Berners-Lee", "WWW")`, console
cleared. -/
def timWorld : World :=
  ⟨⟨[⟨"/turing-awards/Tim-Berners-Lee", "WWW", 1, none⟩], [], 1, 1, 0,
    [⟨.PUT, "/turing-awards/Tim-Berners-Lee", "WWW", 1⟩], true⟩, []⟩

/-- The store after the two `setWinner` calls of `demoPrefix` and `demoDir`,
console cleared. -/
def dirWorld : World :=
  ⟨⟨[⟨"/turing-awards/Knuth", "analysis of algorithms", 2, none⟩,
     ⟨"/turing-awards/Dijkstra", "Programming Languages", 1, none⟩], [], 2, 1, 0,
    [⟨.PUT, "/turing-awards/Dijkstra", "Programming Languages", 1⟩,
     ⟨.PUT, "/turing-awards/Knuth", "analysis of algorithms", 2⟩], true⟩, []⟩

/-- The lines `watchWinners` of `v3/main.go` prints for the events of the four
mutations of `demoWatch`, in the order of the mutations. -/
def demoWatchLines : List String :=
  ["Event received: PUT \"/turing-awards/Ken-Thompson\": \"Unix operating system\"\n",
   "Event received: PUT \"/turing-awards/Alan-Key\": \"Object-Oriented Programming Languages\"\n",
   "Event received: PUT \"/turing-awards/cizixs\": \"nothing\"\n",
   "Event received: DELETE \"/turing-awards/cizixs\": \"\"\n"]

/-- A watch stream that never fails: result `i` is a `set` of one key at
modified index `i`. -/
def steadyResults : Nat → Option V2.Response × Option GoError :=
  fun i => (some ⟨"set", ⟨"/turing-awards/Ken-Thompson", "Unix operating system", i, []⟩⟩, none)

/-! ## Lemmas on `strings.Split` -/

theorem splitChars_ne_nil (sep : Char) (cs : List Char) : splitChars sep cs ≠ [] := by
  induction cs with
  | nil => simp [splitChars]
  | cons c cs ih =>
    unfold splitChars
    split
    · simp
    · split <;> simp

theorem splitChars_token_no_sep (sep : Char) (cs : List Char) :
    ∀ t ∈ splitChars sep cs, sep ∉ t := by
  induction cs with
  | nil => simp [splitChars]
  | cons c cs ih =>
    unfold splitChars
    split
    · intro t ht
      rcases List.mem_cons.mp ht with h | h
      · simp [h]
      · exact ih t h
    · rename_i hc
      split
      · intro t ht
        simp only [List.mem_singleton] at ht
        subst ht
        simpa using Ne.symm hc
      · rename_i t0 ts heq
        intro t ht
        rcases List.mem_cons.mp ht with h | h
        · subst h
          have h0 : sep ∉ t0 := ih t0 (by simp [heq])
          simp only [List.mem_cons, not_or]
          exact ⟨Ne.symm hc, h0⟩
        · exact ih t (by simp [heq, h])

theorem splitChars_no_sep (sep : Char) (cs : List Char) (h : sep ∉ cs) :
    splitChars sep cs = [cs] := by
  induction cs with
  | nil => simp [splitChars]
  | cons c cs ih =>
    simp only [List.mem_cons, not_or] at h
    unfold splitChars
    rw [if_neg (Ne.symm h.1), ih h.2]

theorem splitChars_append_sep (sep : Char) (p w : List Char) :
    ∃ ts, splitChars sep (p ++ sep :: w) = ts ++ splitChars sep w ∧ ts ≠ [] := by
  induction p with
  | nil =>
    refine ⟨[[]], ?_, by simp⟩
    simp only [List.nil_append]
    rw [splitChars, if_pos rfl]
    rfl
  | cons c p ih =>
    obtain ⟨ts, hts, hne⟩ := ih
    simp only [List.cons_append]
    rw [splitChars, hts]
    by_cases hc : c = sep
    · rw [if_pos hc]
      exact ⟨[] :: ts, rfl, by simp⟩
    · rw [if_neg hc]
      cases ts with
      | nil => exact absurd rfl hne
      | cons t ts => exact ⟨(c :: t) :: ts, rfl, by simp⟩

theorem splitChars_getLast_append (sep : Char) (p w : List Char) (h : sep ∉ w) :
    (splitChars sep (p ++ sep :: w)).getLast? = some w := by
  obtain ⟨ts, hts, _⟩ := splitChars_append_sep sep p w
  rw [hts, splitChars_no_sep sep w h]
  simp

theorem getElem?_length_sub_one {α : Type} (xs : List α) :
    xs[xs.length - 1]? = xs.getLast? := by
  rw [List.getLast?_eq_getElem?]

/-- Indexing the last token of a non-empty slice never panics and yields the
last element. -/
theorem index_last {α : Type} (xs : List α) (x : α) (h : xs.getLast? = some x) (w : World) :
    index xs ((xs.length : Int) - 1) w = .done x w := by
  have hne : xs ≠ [] := by
    intro h0
    simp [h0] at h
  have hlen : 0 < xs.length := List.length_pos.mpr hne
  have hi : ¬ ((xs.length : Int) - 1 < 0) := by omega
  have ht : ((xs.length : Int) - 1).toNat = xs.length - 1 := by omega
  simp only [index, if_neg hi, ht, getElem?_length_sub_one, h]

theorem index_zero_cons {α : Type} (x : α) (xs : List α) (w : World) :
    index (x :: xs) 0 w = .done x w := by
  simp [index]

theorem Split_getLast (who : String) (h : '/' ∉ who.data) :
    (Split (turingPrefix ++ who) '/').getLast? = some who := by
  have hp : (turingPrefix ++ who).data = "/turing-awards".data ++ '/' :: who.data := by
    simp [turingPrefix, String.data_append]
  simp only [Split, hp, List.getLast?_map, splitChars_getLast_append _ _ _ h, Option.map_some']

theorem Split_ne_nil (s : String) (sep : Char) : Split s sep ≠ [] := by
  simp [Split, splitChars_ne_nil]

theorem takeWhile_reverse_no_sep (sep : Char) (w : List Char) (h : sep ∉ w) :
    (w.reverse.takeWhile (fun c => c != sep)) = w.reverse := by
  rw [List.takeWhile_eq_self_iff]
  intro c hc
  have : c ∈ w := List.mem_reverse.mp hc
  have hne : c ≠ sep := fun hcs => h (hcs ▸ this)
  simpa using hne

theorem splitChars_getLast_eq (sep : Char) (cs : List Char) :
    (splitChars sep cs).getLast? = some (cs.reverse.takeWhile (fun c => c != sep)).reverse := by
  by_cases h : sep ∈ cs
  · obtain ⟨p, w, hcs, hw⟩ : ∃ p w, cs = p ++ sep :: w ∧ sep ∉ w := by
      induction cs with
      | nil => simp at h
      | cons c cs ih =>
        by_cases h2 : sep ∈ cs
        · obtain ⟨p, w, hcs, hw⟩ := ih h2
          exact ⟨c :: p, w, by rw [hcs]; rfl, hw⟩
        · have hc : c = sep := by
            rcases List.mem_cons.mp h with h3 | h3
            · exact h3.symm
            · exact absurd h3 h2
          exact ⟨[], cs, by rw [hc]; rfl, h2⟩
    rw [hcs, splitChars_getLast_append sep p w hw]
    simp only [List.reverse_append, List.reverse_cons, List.append_assoc, List.singleton_append]
    rw [List.takeWhile_append_of_pos]
    · simp
    · intro c hc
      have : c ∈ w := List.mem_reverse.mp hc
      have hne : c ≠ sep := fun hcs => hw (hcs ▸ this)
      simpa using hne
  · rw [splitChars_no_sep sep cs h, takeWhile_reverse_no_sep sep cs h]
    simp

theorem Split_getLast_eq (key : String) :
    (Split key '/').getLast? = some (lastSegment key) := by
  simp only [Split, lastSegment, List.getLast?_map, splitChars_getLast_eq, Option.map_some']

theorem lastSegment_no_slash (key : String) : '/' ∉ (lastSegment key).data := by
  have hmem : lastSegment key ∈ Split key '/' := List.mem_of_getLast?_eq_some (Split_getLast_eq key)
  simp only [Split, List.mem_map] at hmem
  obtain ⟨cs, hcs, heq⟩ := hmem
  rw [← heq]
  exact splitChars_token_no_sep '/' key.data cs hcs

theorem lastSegment_turingPrefix (who : String) (h : '/' ∉ who.data) :
    lastSegment (turingPrefix ++ who) = who := by
  have h1 := Split_getLast who h
  rw [Split_getLast_eq] at h1
  exact Option.some.inj h1

/-! ## Lemmas on the monad and the store -/

theorem bind_apply {α β : Type} (m : Go α) (f : α → Go β) (w : World) :
    (m >>= f) w = match m w with
      | .done a w1 => f a w1
      | .panicked w1 => .panicked w1 := rfl

theorem pure_apply {α : Type} (a : α) (w : World) : (pure a : Go α) w = .done a w := rfl

theorem find_filter_ne (es : List Entry) (key : String) :
    (es.filter (fun e => e.key != key)).find? (fun e => e.key == key) = none := by
  induction es with
  | nil => rfl
  | cons e es ih =>
    by_cases h : e.key = key
    · simp [List.filter_cons, h]
    · simp [List.filter_cons, List.find?_cons, h]

theorem find_commitPut (s : Store) (key value : String) (lease : Option Nat) :
    (s.commitPut key value lease).find key = some ⟨key, value, s.revision + 1, lease⟩ := by
  simp [Store.find, Store.commitPut, List.find?_append, find_filter_ne]

theorem valueAt_commitPut (s : Store) (key value : String) (lease : Option Nat) :
    (s.commitPut key value lease).valueAt key = some value := by
  simp [Store.valueAt, find_commitPut]

theorem find_commitDelete (s : Store) (key : String) :
    (s.commitDelete key).find key = none := by
  simp only [Store.find, Store.commitDelete]
  exact find_filter_ne s.entries key

theorem find_key_eq (s : Store) (key : String) (e : Entry) (h : s.find key = some e) :
    e.key = key := by
  have := List.find?_some h
  simpa using this

/-! ## Lemmas on leases and the expiry sweep -/

theorem foldl_max_ge (ls : List Lease) (m : Nat) :
    m ≤ ls.foldl (fun m l => max m (l.leaseID + 1)) m ∧
      ∀ l ∈ ls, l.leaseID < ls.foldl (fun m l => max m (l.leaseID + 1)) m := by
  induction ls generalizing m with
  | nil => simp
  | cons x xs ih =>
    simp only [List.foldl_cons, List.mem_cons, forall_eq_or_imp]
    obtain ⟨h1, h2⟩ := ih (max m (x.leaseID + 1))
    refine ⟨by omega, by omega, h2⟩

theorem freshLeaseID_fresh (s : Store) : ∀ l ∈ s.leases, l.leaseID < s.freshLeaseID :=
  (foldl_max_ge s.leases s.nextLeaseID).2

theorem foldl_commitDelete_entries (ks : List String) (s : Store) :
    (ks.foldl (fun acc k => acc.commitDelete k) s).entries
      = s.entries.filter (fun e => decide (e.key ∉ ks)) := by
  induction ks generalizing s with
  | nil => simp
  | cons k ks ih =>
    rw [List.foldl_cons, ih]
    simp only [Store.commitDelete, List.filter_filter]
    congr 1
    funext e
    by_cases h1 : e.key = k <;> by_cases h2 : e.key ∈ ks <;> simp [h1, h2]

theorem foldl_commitDelete_fields (ks : List String) (s : Store) :
    (ks.foldl (fun acc k => acc.commitDelete k) s).reachable = s.reachable ∧
    (ks.foldl (fun acc k => acc.commitDelete k) s).now = s.now := by
  induction ks generalizing s with
  | nil => simp
  | cons k ks ih =>
    rw [List.foldl_cons]
    exact ih (s.commitDelete k)

theorem sweep_entries (s : Store) :
    s.sweep.entries = s.entries.filter (fun e => decide (e.key ∉ s.expiredKeys)) := by
  simp only [Store.sweep]
  exact foldl_commitDelete_entries _ _

theorem sweep_reachable (s : Store) : s.sweep.reachable = s.reachable := by
  simp only [Store.sweep]
  exact (foldl_commitDelete_fields _ _).1

theorem advance_reachable (s : Store) (d : Int) : (s.advance d).reachable = s.reachable := by
  simp only [Store.advance, sweep_reachable]

theorem find_filter_keys_keep (es : List Entry) (ks : List String) (key : String)
    (h : key ∉ ks) :
    (es.filter (fun e => decide (e.key ∉ ks))).find? (fun e => e.key == key)
      = es.find? (fun e => e.key == key) := by
  induction es with
  | nil => rfl
  | cons e es ih =>
    by_cases hk : e.key = key
    · simp [List.filter_cons, h, hk]
    · by_cases hm : e.key ∈ ks
      · simpa [List.filter_cons, hm, List.find?_cons, hk] using ih
      · simpa [List.filter_cons, hm, List.find?_cons, hk] using ih

theorem find_filter_keys_drop (es : List Entry) (ks : List String) (key : String)
    (h : key ∈ ks) :
    (es.filter (fun e => decide (e.key ∉ ks))).find? (fun e => e.key == key) = none := by
  rw [List.find?_eq_none]
  intro e he hk
  have hkey : e.key = key := by simpa using hk
  have hq := (List.mem_filter.mp he).2
  rw [hkey] at hq
  simp [h] at hq

/-- The store after a key was put under a lease granted on the spot: the state
both `setWinnerWithLease` of v3 and `setWinner` with a ttl of v2 leave. -/
theorem leased_put_present (s : Store) (key value : String) (ttl d : Int) (hd : d < ttl) :
    (((s.grant ttl).2.commitPut key value (some (s.grant ttl).1)).advance d).find key
      = some ⟨key, value, s.revision + 1, some s.freshLeaseID⟩ := by
  have hnot : key ∉ (({ ((s.grant ttl).2.commitPut key value (some (s.grant ttl).1)) with
      now := ((s.grant ttl).2.commitPut key value (some (s.grant ttl).1)).now + d } :
        Store)).expiredKeys := by
    simp only [Store.expiredKeys, Store.grant, Store.commitPut, List.mem_map, List.mem_filter,
      List.mem_append, List.mem_singleton, not_exists, not_and]
    intro e ⟨he, hexp⟩ hkey
    rcases he with he | he
    · have := he.2
      simp [hkey] at this
    · subst he
      simp only [List.any_append, List.any_cons, List.any_nil, Bool.or_false, Bool.or_eq_true,
        List.any_eq_true, Bool.and_eq_true, beq_iff_eq, decide_eq_true_eq] at hexp
      rcases hexp with ⟨l, hl, hid, _⟩ | ⟨_, hdead⟩
      · have := freshLeaseID_fresh s l hl
        omega
      · omega
  simp only [Store.advance, Store.find, sweep_entries]
  rw [find_filter_keys_keep _ _ _ hnot]
  exact find_commitPut _ _ _ _

theorem leased_put_gone (s : Store) (key value : String) (ttl d : Int) (hd : ttl ≤ d) :
    (((s.grant ttl).2.commitPut key value (some (s.grant ttl).1)).advance d).find key
      = none := by
  have hmem : key ∈ (({ ((s.grant ttl).2.commitPut key value (some (s.grant ttl).1)) with
      now := ((s.grant ttl).2.commitPut key value (some (s.grant ttl).1)).now + d } :
        Store)).expiredKeys := by
    simp only [Store.expiredKeys, Store.grant, Store.commitPut, List.mem_map, List.mem_filter,
      List.mem_append, List.mem_singleton]
    refine ⟨⟨key, value, s.revision + 1, some s.freshLeaseID⟩, ⟨Or.inr rfl, ?_⟩, rfl⟩
    simp only [List.any_append, List.any_cons, List.any_nil, Bool.or_false, Bool.or_eq_true,
      Bool.and_eq_true, beq_self_eq_true, decide_eq_true_eq, true_and]
    right
    omega
  simp only [Store.advance, Store.find, sweep_entries]
  exact find_filter_keys_drop _ _ _ hmem

/-! ## Behaviour of the wrappers of `v3/main.go` -/

theorem v3_updateWinner_unreachable (who prev new : String) (w : World)
    (h : w.store.reachable = false) :
    V3.updateWinner who prev new w = .panicked
      { w with stdout := w.stdout ++ ["Update " ++ (turingPrefix ++ who) ++ " to [" ++ new ++ "]\n",
          "Set value error: Unavailable"] } := by
  simp [V3.updateWinner, bind_apply, Printf, V3.client.TxnIfValueEqThenPut, h, deref, fmtErr,
    GoError.text]

theorem v3_setWinner_reachable (who what : String) (w : World) (h : w.store.reachable = true) :
    V3.setWinner who what w = .done none
      { store := w.store.commitPut (turingPrefix ++ who) what none
        stdout := w.stdout ++ ["Set " ++ (turingPrefix ++ who) ++ " to [" ++ what ++ "]\n"] } := by
  simp [V3.setWinner, bind_apply, pure_apply, Printf, V3.client.Put, h]

theorem v3_setWinner_unreachable (who what : String) (w : World) (h : w.store.reachable = false) :
    V3.setWinner who what w = .done (some .Unavailable)
      { w with stdout := w.stdout ++ ["Set " ++ (turingPrefix ++ who) ++ " to [" ++ what ++ "]\n",
          "Put error: Unavailable"] } := by
  simp [V3.setWinner, bind_apply, pure_apply, Printf, V3.client.Put, h, fmtErr, GoError.text]

theorem v3_getWinner_absent (who : String) (w : World) (h : w.store.reachable = true)
    (hk : w.store.find (turingPrefix ++ who) = none) :
    V3.getWinner who w = .done none
      { w with stdout := w.stdout ++ [who ++ " does not win Turing Awards\n"] } := by
  simp [V3.getWinner, bind_apply, pure_apply, Printf, V3.client.Get, h, hk, deref]

theorem v3_getWinner_present (who : String) (w : World) (e : Entry)
    (h : w.store.reachable = true) (hk : w.store.find (turingPrefix ++ who) = some e)
    (hwho : '/' ∉ who.data) :
    V3.getWinner who w = .done none
      { w with stdout := w.stdout ++ [who ++ " won turing awards for " ++ e.value ++ "\n"] } := by
  have hkey : e.key = turingPrefix ++ who := find_key_eq _ _ _ hk
  simp [V3.getWinner, bind_apply, pure_apply, Printf, V3.client.Get, h, hk, deref, hkey,
    index_zero_cons, index_last _ _ (Split_getLast who hwho)]

theorem v3_getWinner_found (who : String) (w : World) (e : Entry)
    (h : w.store.reachable = true) (hk : w.store.find (turingPrefix ++ who) = some e) :
    V3.getWinner who w = .done none
      { w with stdout := w.stdout ++
          [lastSegment e.key ++ " won turing awards for " ++ e.value ++ "\n"] } := by
  simp [V3.getWinner, bind_apply, pure_apply, Printf, V3.client.Get, h, hk, deref,
    index_zero_cons, index_last _ _ (Split_getLast_eq e.key)]

theorem v3_deleteWinner_present (who : String) (w : World) (e : Entry)
    (h : w.store.reachable = true) (hk : w.store.find (turingPrefix ++ who) = some e) :
    V3.deleteWinner who w = .done none
      { store := w.store.commitDelete (turingPrefix ++ who)
        stdout := w.stdout ++ ["Delete " ++ (turingPrefix ++ who) ++ " \n"] } := by
  simp [V3.deleteWinner, bind_apply, pure_apply, Printf, V3.client.Delete, h, hk]

theorem v3_deleteWinner_absent (who : String) (w : World)
    (h : w.store.reachable = true) (hk : w.store.find (turingPrefix ++ who) = none) :
    V3.deleteWinner who w = .done none
      { w with stdout := w.stdout ++ ["Delete " ++ (turingPrefix ++ who) ++ " \n"] } := by
  simp [V3.deleteWinner, bind_apply, pure_apply, Printf, V3.client.Delete, h, hk]

theorem v3_deleteWinner_unreachable (who : String) (w : World) (h : w.store.reachable = false) :
    V3.deleteWinner who w = .done (some .Unavailable)
      { w with stdout := w.stdout ++ ["Delete " ++ (turingPrefix ++ who) ++ " \n",
          "Delete error: Unavailable"] } := by
  simp [V3.deleteWinner, bind_apply, pure_apply, Printf, V3.client.Delete, h, fmtErr,
    GoError.text]

theorem v3_updateWinner_match (who prev new : String) (w : World)
    (h : w.store.reachable = true) (hv : w.store.valueAt (turingPrefix ++ who) = some prev) :
    V3.updateWinner who prev new w = .done none
      { store := w.store.commitPut (turingPrefix ++ who) new none
        stdout := w.stdout ++ ["Update " ++ (turingPrefix ++ who) ++ " to [" ++ new ++ "]\n"] } := by
  simp [V3.updateWinner, bind_apply, pure_apply, Printf, V3.client.TxnIfValueEqThenPut, h, hv,
    deref]

theorem v3_updateWinner_mismatch (who prev new : String) (w : World)
    (h : w.store.reachable = true) (hv : w.store.valueAt (turingPrefix ++ who) ≠ some prev) :
    V3.updateWinner who prev new w = .done none
      { w with stdout := w.stdout ++ ["Update " ++ (turingPrefix ++ who) ++ " to [" ++ new ++ "]\n",
          "Set value failed: value compare error\n"] } := by
  simp [V3.updateWinner, bind_apply, pure_apply, Printf, V3.client.TxnIfValueEqThenPut, h, hv,
    deref]

theorem v3_setWinnerWithLease_unreachable (who what : String) (ttl : Int) (w : World)
    (h : w.store.reachable = false) :
    V3.setWinnerWithLease who what ttl w = .panicked
      { w with stdout := w.stdout ++
          ["Set " ++ (turingPrefix ++ who) ++ " to [" ++ what ++ "] with lease " ++ toString ttl
            ++ "\n", "Unable to create lease"] } := by
  simp [V3.setWinnerWithLease, bind_apply, Printf, V3.client.Grant, h, deref]

theorem v3_Grant_error_unreachable (ttl : Int) (w w1 : World) (resp : Option V3.LeaseGrantResponse)
    (e : GoError) (h : V3.client.Grant ttl w = .done (resp, some e) w1) :
    w.store.reachable = false := by
  cases hr : w.store.reachable with
  | false => rfl
  | true => simp [V3.client.Grant, hr] at h

theorem v3_Txn_error_unreachable (key prev val : String) (w w1 : World)
    (resp : Option V3.TxnResponse) (e : GoError)
    (h : V3.client.TxnIfValueEqThenPut key prev val w = .done (resp, some e) w1) :
    w.store.reachable = false := by
  cases hr : w.store.reachable with
  | false => rfl
  | true =>
    simp only [V3.client.TxnIfValueEqThenPut, hr, if_true] at h
    split at h <;> simp at h

/-! ## Behaviour of the wrappers of `v2/main.go` -/

theorem below_eq_nil_iff (s : Store) (key : String) :
    V2.below s key = [] ↔
      ∀ e ∈ s.entries, ¬ (e.key ≠ key ∧ (V2.dirPath key).isPrefixOf e.key.data = true) := by
  simp [V2.below, List.filter_eq_nil_iff]

theorem below_commitDelete (s : Store) (key k : String) (h : V2.below s key = []) :
    V2.below (s.commitDelete k) key = [] := by
  rw [below_eq_nil_iff] at h ⊢
  intro e he
  exact h e (List.mem_of_mem_filter he)

theorem below_commitPut_self (s : Store) (key v : String) (l : Option Nat)
    (h : V2.below s key = []) : V2.below (s.commitPut key v l) key = [] := by
  rw [below_eq_nil_iff] at h ⊢
  intro e he
  simp only [Store.commitPut, List.mem_append, List.mem_singleton] at he
  rcases he with he | he
  · exact h e (List.mem_of_mem_filter he)
  · subst he
    simp

theorem dirPath_extends (key : String) : key.data <+: V2.dirPath key := by
  unfold V2.dirPath
  split
  · exact List.prefix_refl _
  · exact List.prefix_append _ _

theorem below_nil_of_unrelated (s : Store) (key : String)
    (hk : ∀ e ∈ s.entries, ¬ key.data.isPrefixOf e.key.data = true) : V2.below s key = [] := by
  rw [below_eq_nil_iff]
  intro e he hc
  apply hk e he
  rw [List.isPrefixOf_iff_prefix] at hc ⊢
  exact (dirPath_extends key).trans hc.2

theorem find_none_of_unrelated (s : Store) (key : String)
    (hk : ∀ e ∈ s.entries, ¬ key.data.isPrefixOf e.key.data = true) : s.find key = none := by
  simp only [Store.find, List.find?_eq_none]
  intro e he hke
  apply hk e he
  have : e.key = key := by simpa using hke
  rw [this]
  simp

theorem v2_updateWinner_match (who prev new : String) (w : World)
    (h : w.store.reachable = true) (hb : V2.below w.store (turingPrefix ++ who) = [])
    (hv : w.store.valueAt (turingPrefix ++ who) = some prev) :
    V2.updateWinner who prev new w = .done none
      { store := w.store.commitPut (turingPrefix ++ who) new none
        stdout := w.stdout ++ ["Update " ++ (turingPrefix ++ who) ++ " to [" ++ new ++ "]\n"] } := by
  simp [V2.updateWinner, bind_apply, pure_apply, Printf, V2.client.Set, h, hv, hb]

theorem v2_updateWinner_mismatch (who prev new : String) (w : World)
    (h : w.store.reachable = true) (hb : V2.below w.store (turingPrefix ++ who) = [])
    (hp : prev ≠ "") (hv : w.store.valueAt (turingPrefix ++ who) ≠ some prev) :
    V2.updateWinner who prev new w =
      .done (some (.CasFailed (w.store.valueAt (turingPrefix ++ who))))
      { w with stdout := w.stdout ++ ["Update " ++ (turingPrefix ++ who) ++ " to [" ++ new ++ "]\n",
          "Set value error: CasFailed"] } := by
  simp [V2.updateWinner, bind_apply, pure_apply, Printf, V2.client.Set, h, hv, hp, hb, fmtErr,
    GoError.text]

theorem v2_updateWinner_empty_prev (who new : String) (w : World)
    (h : w.store.reachable = true) (hb : V2.below w.store (turingPrefix ++ who) = []) :
    V2.updateWinner who "" new w = .done none
      { store := w.store.commitPut (turingPrefix ++ who) new none
        stdout := w.stdout ++ ["Update " ++ (turingPrefix ++ who) ++ " to [" ++ new ++ "]\n"] } := by
  simp [V2.updateWinner, bind_apply, pure_apply, Printf, V2.client.Set, h, hb]

theorem v2_Get_absent (key : String) (w : World) (h : w.store.reachable = true)
    (hb : V2.below w.store key = []) (hf : w.store.find key = none) :
    V2.client.Get key w = .done (none, some .NotFound) w := by
  simp only [V2.client.Get, h, if_true, hb, hf]

theorem v2_Get_file (key : String) (w : World) (e : Entry) (h : w.store.reachable = true)
    (hb : V2.below w.store key = []) (hf : w.store.find key = some e) :
    V2.client.Get key w = .done (some ⟨"get", ⟨e.key, e.value, e.revision, []⟩⟩, none) w := by
  simp only [V2.client.Get, h, if_true, hb, hf]

theorem v2_Get_directory (key : String) (w : World) (h : w.store.reachable = true)
    (hb : V2.below w.store key ≠ []) :
    V2.client.Get key w = .done (some ⟨"get", ⟨key, "", 0,
      ((V2.below w.store key).insertionSort (fun a b => keyLe a.key.data b.key.data = true)).map
        (fun e => ⟨e.key, e.value⟩)⟩⟩, none) w := by
  simp only [V2.client.Get, h, if_true]
  split
  · rename_i c cs hc
    rw [hc]
  · rename_i hc
    exact absurd hc hb

theorem v2_Get_cases (key : String) (w : World) (h : w.store.reachable = true) :
    (∃ r, V2.client.Get key w = .done (some r, none) w) ∨
      V2.client.Get key w = .done (none, some .NotFound) w := by
  simp only [V2.client.Get, h, if_true]
  split
  · exact Or.inl ⟨_, rfl⟩
  · split
    · exact Or.inl ⟨_, rfl⟩
    · exact Or.inr rfl

/-- What `getWinner` of `v2/main.go` does with a response of `client.Get`:
it prints the last path segment of the node's key as the winner. -/
theorem v2_getWinner_of_response (who : String) (w : World) (r : V2.Response)
    (hr : V2.client.Get (turingPrefix ++ who) w = .done (some r, none) w) :
    V2.getWinner who w = .done none
      { w with stdout := w.stdout ++
          [lastSegment r.Node.Key ++ " won turing awards for " ++ r.Node.Value ++ "\n"] } := by
  simp only [V2.getWinner, bind_apply, hr]
  simp [pure_apply, bind_apply, Printf, deref, index_last _ _ (Split_getLast_eq r.Node.Key)]

theorem v2_getWinner_not_found (who : String) (w : World)
    (hr : V2.client.Get (turingPrefix ++ who) w = .done (none, some .NotFound) w) :
    V2.getWinner who w = .done none
      { w with stdout := w.stdout ++ [who ++ " does not win Turing Awards\n"] } := by
  simp only [V2.getWinner, bind_apply, hr]
  simp [pure_apply, bind_apply, Printf, V2.IsKeyNotFound]

theorem v2_getWinner_absent (who : String) (w : World) (h : w.store.reachable = true)
    (hk : ∀ e ∈ w.store.entries, ¬ (turingPrefix ++ who).data.isPrefixOf e.key.data = true) :
    V2.getWinner who w = .done none
      { w with stdout := w.stdout ++ [who ++ " does not win Turing Awards\n"] } :=
  v2_getWinner_not_found who w
    (v2_Get_absent _ w h (below_nil_of_unrelated _ _ hk) (find_none_of_unrelated _ _ hk))

theorem v2_getWinner_returns_nil (who : String) (w : World) (h : w.store.reachable = true) :
    ∃ out, V2.getWinner who w = .done none { w with stdout := w.stdout ++ [out] } := by
  rcases v2_Get_cases (turingPrefix ++ who) w h with ⟨r, hr⟩ | hr
  · exact ⟨_, v2_getWinner_of_response who w r hr⟩
  · exact ⟨_, v2_getWinner_not_found who w hr⟩

theorem v2_getWinners_loop (nodes : List V2.ChildNode) (w : World) :
    forEach nodes (fun node => do
      let tokens := Split node.Key '/'
      let who ← index tokens ((tokens.length : Int) - 1)
      let what := node.Value
      Printf (who ++ " won turing awards for " ++ what ++ "\n")) w
    = .done () { w with stdout := w.stdout ++ nodes.map (fun node =>
        lastSegment node.Key ++ " won turing awards for " ++ node.Value ++ "\n") } := by
  induction nodes generalizing w with
  | nil => simp [forEach, pure_apply]
  | cons n ns ih =>
    simp [forEach, bind_apply, index_last _ _ (Split_getLast_eq n.Key), Printf, ih]

theorem v2_getWinners_of_response (w : World) (r : V2.Response)
    (hr : V2.client.Get turingPrefix w = .done (some r, none) w) :
    V2.getWinners w = .done none
      { w with stdout := w.stdout ++ r.Node.Nodes.map (fun node =>
          lastSegment node.Key ++ " won turing awards for " ++ node.Value ++ "\n") } := by
  simp only [V2.getWinners, bind_apply, hr]
  simp [pure_apply, bind_apply, deref, v2_getWinners_loop]

theorem v2_watchLoop_last (num count : Int) (wt : V2.Watcher) (w : World) (r : V2.Response)
    (hr : wt.results wt.taken = (some r, none)) (hc : count + 1 ≥ num) :
    V2.watchLoop num count wt w = .done (none, ⟨wt.results, wt.taken + 1⟩)
      { w with stdout := w.stdout ++ [V2.watchLine r] } := by
  rw [V2.watchLoop]
  simp [bind_apply, pure_apply, V2.Watcher.Next, hr, deref, Printf, hc]

theorem v2_watchLoop_step (num count : Int) (wt : V2.Watcher) (w : World) (r : V2.Response)
    (hr : wt.results wt.taken = (some r, none)) (hc : count + 1 < num) :
    V2.watchLoop num count wt w = V2.watchLoop num (count + 1) ⟨wt.results, wt.taken + 1⟩
      { w with stdout := w.stdout ++ [V2.watchLine r] } := by
  have hc1 : ¬ num ≤ count + 1 := by omega
  rw [V2.watchLoop]
  simp [bind_apply, pure_apply, V2.Watcher.Next, hr, deref, Printf, hc1]

theorem v2_watchLoop_error (num count : Int) (wt : V2.Watcher) (w : World)
    (resp : Option V2.Response) (e : GoError) (hr : wt.results wt.taken = (resp, some e)) :
    V2.watchLoop num count wt w = .done (some e, ⟨wt.results, wt.taken + 1⟩)
      { w with stdout := w.stdout ++ ["watch error: " ++ e.text] } := by
  rw [V2.watchLoop]
  simp [bind_apply, pure_apply, V2.Watcher.Next, hr, Printf, fmtErr]

theorem v2_watchLoop_takes (results : Nat → Option V2.Response × Option GoError)
    (hok : ∀ i, ∃ r, results i = (some r, none)) (num : Int) (k : Nat) :
    ∀ (count : Int) (taken : Nat) (w : World), count + 1 + k = num →
      ∃ w1, V2.watchLoop num count ⟨results, taken⟩ w = .done (none, ⟨results, taken + 1 + k⟩) w1
        ∧ w1.store = w.store := by
  induction k with
  | zero =>
    intro count taken w h
    obtain ⟨r, hr⟩ := hok taken
    exact ⟨_, v2_watchLoop_last num count ⟨results, taken⟩ w r hr (by omega), rfl⟩
  | succ k ih =>
    intro count taken w h
    obtain ⟨r, hr⟩ := hok taken
    rw [v2_watchLoop_step num count ⟨results, taken⟩ w r hr (by omega)]
    obtain ⟨w1, h1, h2⟩ := ih (count + 1) (taken + 1)
      { w with stdout := w.stdout ++ [V2.watchLine r] } (by omega)
    refine ⟨w1, ?_, h2⟩
    rw [h1]
    congr 3
    omega

theorem v3_setWinner_success (who what : String) (w w1 : World)
    (h : V3.setWinner who what w = .done none w1) :
    w.store.reachable = true ∧ w1.store = w.store.commitPut (turingPrefix ++ who) what none := by
  cases hr : w.store.reachable with
  | false =>
    rw [v3_setWinner_unreachable who what w hr] at h
    simp at h
  | true =>
    rw [v3_setWinner_reachable who what w hr] at h
    simp only [Exec.done.injEq, true_and] at h
    exact ⟨rfl, by rw [← h]⟩

theorem v3_deleteWinner_success (who : String) (w w1 : World)
    (h : V3.deleteWinner who w = .done none w1) :
    w1.store.reachable = true ∧ w1.store.find (turingPrefix ++ who) = none := by
  cases hr : w.store.reachable with
  | false =>
    rw [v3_deleteWinner_unreachable who w hr] at h
    simp at h
  | true =>
    cases hk : w.store.find (turingPrefix ++ who) with
    | none =>
      rw [v3_deleteWinner_absent who w hr hk] at h
      simp only [Exec.done.injEq, true_and] at h
      rw [← h]
      exact ⟨hr, hk⟩
    | some e =>
      rw [v3_deleteWinner_present who w e hr hk] at h
      simp only [Exec.done.injEq, true_and] at h
      rw [← h]
      exact ⟨hr, find_commitDelete _ _⟩

theorem v2_deleteWinner_success (who : String) (w w1 : World)
    (h : V2.deleteWinner who w = .done none w1) :
    w1.store.reachable = true ∧ w1.store.find (turingPrefix ++ who) = none ∧
      V2.below w1.store (turingPrefix ++ who) = [] := by
  cases hr : w.store.reachable with
  | false =>
    simp [V2.deleteWinner, bind_apply, pure_apply, Printf, V2.client.Delete, hr] at h
  | true =>
    cases hb : V2.below w.store ("/turing-awards/" ++ who) with
    | cons c cs =>
      simp [V2.deleteWinner, bind_apply, pure_apply, Printf, V2.client.Delete, hr, hb] at h
    | nil =>
      cases hk : w.store.find ("/turing-awards/" ++ who) with
      | none =>
        simp [V2.deleteWinner, bind_apply, pure_apply, Printf, V2.client.Delete, hr, hb, hk] at h
      | some e =>
        simp [V2.deleteWinner, bind_apply, pure_apply, Printf, V2.client.Delete, hr, hb, hk] at h
        rw [← h]
        exact ⟨hr, find_commitDelete _ _, below_commitDelete _ _ _ hb⟩

/-! ## Keys written with a time-to-live -/

theorem wrapInt64_of_range (x : Int) (h0 : 0 ≤ x) (h1 : x < 2 ^ 63) : wrapInt64 x = x := by
  unfold wrapInt64
  omega

theorem leaseLive_grant (s : Store) (ttl : Int) (h : 0 < ttl) :
    (s.grant ttl).2.leaseLive (s.grant ttl).1 = true := by
  simp only [Store.leaseLive, Store.grant, List.any_append, List.any_cons, List.any_nil,
    Bool.or_false, Bool.or_eq_true, Bool.and_eq_true, beq_self_eq_true, decide_eq_true_eq,
    true_and]
  right
  omega

theorem sleep_apply (d : Int) (w : World) :
    Sleep d w = .done () (if d ≤ 0 then w else { w with store := w.store.advance d }) := rfl

theorem below_advance (s : Store) (key : String) (d : Int) (h : V2.below s key = []) :
    V2.below (s.advance d) key = [] := by
  rw [below_eq_nil_iff] at h ⊢
  intro e he
  simp only [Store.advance, sweep_entries] at he
  exact h e (List.mem_of_mem_filter he)

theorem minLease_pos (ttl : Int) : 0 < max ttl V3.minLeaseTTL * Second := by
  have h : (5 : Int) ≤ max ttl V3.minLeaseTTL := le_max_right ttl 5
  unfold Second
  omega

theorem v3_setWinnerWithLease_reachable (who what : String) (ttl : Int) (w : World)
    (h : w.store.reachable = true) :
    V3.setWinnerWithLease who what ttl w = .done none
      { store := (w.store.grant (max ttl V3.minLeaseTTL * Second)).2.commitPut
          (turingPrefix ++ who) what (some (w.store.grant (max ttl V3.minLeaseTTL * Second)).1)
        stdout := w.stdout ++
          ["Set " ++ (turingPrefix ++ who) ++ " to [" ++ what ++ "] with lease " ++ toString ttl
            ++ "\n"] } := by
  have hlive := leaseLive_grant w.store (max ttl V3.minLeaseTTL * Second) (minLease_pos ttl)
  have hreach : (w.store.grant (max ttl V3.minLeaseTTL * Second)).2.reachable = true := h
  simp [V3.setWinnerWithLease, bind_apply, pure_apply, Printf, V3.client.Grant, h,
    deref, V3.client.Put, hlive, hreach]

theorem v3_setWinnerWithLease_success (who what : String) (ttl : Int) (w w1 : World)
    (h : V3.setWinnerWithLease who what ttl w = .done none w1) :
    w.store.reachable = true ∧
      w1 = { store := (w.store.grant (max ttl V3.minLeaseTTL * Second)).2.commitPut
               (turingPrefix ++ who) what
               (some (w.store.grant (max ttl V3.minLeaseTTL * Second)).1)
             stdout := w.stdout ++
               ["Set " ++ (turingPrefix ++ who) ++ " to [" ++ what ++ "] with lease "
                 ++ toString ttl ++ "\n"] } := by
  cases hr : w.store.reachable with
  | false =>
    rw [v3_setWinnerWithLease_unreachable who what ttl w hr] at h
    simp at h
  | true =>
    rw [v3_setWinnerWithLease_reachable who what ttl w hr] at h
    simp only [Exec.done.injEq, true_and] at h
    exact ⟨rfl, h.symm⟩

theorem v2_setWinner_ttl_reachable (who what : String) (ttl : Int) (w : World)
    (h : w.store.reachable = true) (hb : V2.below w.store (turingPrefix ++ who) = [])
    (httl : 0 < ttl) (hfit : ttl * Second < 2 ^ 63) :
    V2.setWinner who what ttl w = .done none
      { store := (w.store.grant (ttl * Second)).2.commitPut (turingPrefix ++ who) what
          (some (w.store.grant (ttl * Second)).1)
        stdout := w.stdout ++ ["Set " ++ (turingPrefix ++ who) ++ " to [" ++ what ++ "]\n"] } := by
  have hpos : 0 < ttl * Second := by
    unfold Second
    omega
  have hw := wrapInt64_of_range (ttl * Second) (le_of_lt hpos) hfit
  simp [V2.setWinner, bind_apply, pure_apply, Printf, V2.client.Set, h, hb, hw, hpos]

theorem v2_setWinner_ttl_success (who what : String) (ttl : Int) (w w1 : World)
    (httl : 0 < ttl) (hfit : ttl * Second < 2 ^ 63)
    (h : V2.setWinner who what ttl w = .done none w1) :
    w.store.reachable = true ∧ V2.below w.store (turingPrefix ++ who) = [] ∧
      w1 = { store := (w.store.grant (ttl * Second)).2.commitPut (turingPrefix ++ who) what
               (some (w.store.grant (ttl * Second)).1)
             stdout := w.stdout ++
               ["Set " ++ (turingPrefix ++ who) ++ " to [" ++ what ++ "]\n"] } := by
  cases hr : w.store.reachable with
  | false =>
    simp [V2.setWinner, bind_apply, pure_apply, Printf, V2.client.Set, hr] at h
  | true =>
    by_cases hb : V2.below w.store (turingPrefix ++ who) = []
    · rw [v2_setWinner_ttl_reachable who what ttl w hr hb httl hfit] at h
      simp only [Exec.done.injEq, true_and] at h
      exact ⟨rfl, hb, h.symm⟩
    · simp [V2.setWinner, bind_apply, pure_apply, Printf, V2.client.Set, hr, hb] at h

theorem v3_lookup_after_sleep_found (s1 : Store) (out : List String) (who : String) (e : Entry)
    (d : Int) (hr : s1.reachable = true) (h0 : s1.find (turingPrefix ++ who) = some e)
    (hd : (s1.advance d).find (turingPrefix ++ who) = some e) :
    (Sleep d >>= fun _ => V3.getWinner who) ⟨s1, out⟩ = .done none
      { store := if d ≤ 0 then s1 else s1.advance d
        stdout := out ++ [lastSegment e.key ++ " won turing awards for " ++ e.value ++ "\n"] } := by
  rw [bind_apply, sleep_apply]
  by_cases hd0 : d ≤ 0
  · simp only [if_pos hd0]
    exact v3_getWinner_found who ⟨s1, out⟩ e hr h0
  · simp only [if_neg hd0]
    exact v3_getWinner_found who ⟨s1.advance d, out⟩ e (by rw [advance_reachable]; exact hr) hd

theorem v3_lookup_after_sleep_absent (s1 : Store) (out : List String) (who : String)
    (d : Int) (hr : s1.reachable = true) (hpos : 0 < d)
    (hd : (s1.advance d).find (turingPrefix ++ who) = none) :
    (Sleep d >>= fun _ => V3.getWinner who) ⟨s1, out⟩ = .done none
      { store := s1.advance d
        stdout := out ++ [who ++ " does not win Turing Awards\n"] } := by
  have hd0 : ¬ d ≤ 0 := by omega
  rw [bind_apply, sleep_apply]
  simp only [if_neg hd0]
  exact v3_getWinner_absent who ⟨s1.advance d, out⟩ (by rw [advance_reachable]; exact hr) hd

theorem v2_lookup_after_sleep_found (s1 : Store) (out : List String) (who : String) (e : Entry)
    (d : Int) (hr : s1.reachable = true) (hb : V2.below s1 (turingPrefix ++ who) = [])
    (h0 : s1.find (turingPrefix ++ who) = some e)
    (hd : (s1.advance d).find (turingPrefix ++ who) = some e) :
    (Sleep d >>= fun _ => V2.getWinner who) ⟨s1, out⟩ = .done none
      { store := if d ≤ 0 then s1 else s1.advance d
        stdout := out ++ [lastSegment e.key ++ " won turing awards for " ++ e.value ++ "\n"] } := by
  rw [bind_apply, sleep_apply]
  by_cases hd0 : d ≤ 0
  · simp only [if_pos hd0]
    exact v2_getWinner_of_response who ⟨s1, out⟩ _ (v2_Get_file _ ⟨s1, out⟩ e hr hb h0)
  · simp only [if_neg hd0]
    exact v2_getWinner_of_response who ⟨s1.advance d, out⟩ _
      (v2_Get_file _ ⟨s1.advance d, out⟩ e (by rw [advance_reachable]; exact hr)
        (below_advance s1 _ d hb) hd)

theorem v2_lookup_after_sleep_absent (s1 : Store) (out : List String) (who : String)
    (d : Int) (hr : s1.reachable = true) (hb : V2.below s1 (turingPrefix ++ who) = [])
    (hpos : 0 < d) (hd : (s1.advance d).find (turingPrefix ++ who) = none) :
    (Sleep d >>= fun _ => V2.getWinner who) ⟨s1, out⟩ = .done none
      { store := s1.advance d
        stdout := out ++ [who ++ " does not win Turing Awards\n"] } := by
  have hd0 : ¬ d ≤ 0 := by omega
  rw [bind_apply, sleep_apply]
  simp only [if_neg hd0]
  exact v2_getWinner_not_found who ⟨s1.advance d, out⟩
    (v2_Get_absent _ ⟨s1.advance d, out⟩ (by rw [advance_reachable]; exact hr)
      (below_advance s1 _ d hb) hd)

theorem advance_now (s : Store) (d : Int) : (s.advance d).now = s.now + d := by
  simp only [Store.advance, Store.sweep]
  exact (foldl_commitDelete_fields _ _).2

/-- Run of `demoLease` of `v3/main.go` on any reachable store: the key is set
with a lease of 5 s and found, the program sleeps 7 s, and the second lookup
finds nothing. -/
theorem v3_demoLease_run (w : World) (hr : w.store.reachable = true) :
    ∃ w1, V3.demoLease w = .done none w1 ∧ w1.store.now = w.store.now + 7 * Second ∧
      w1.stdout = w.stdout ++ ["Set /turing-awards/cizixs to [nothing] with lease 5\n",
        "cizixs won turing awards for nothing\n", "wait for lease to expire...\n",
        "cizixs does not win Turing Awards\n"] := by
  have hset := v3_setWinnerWithLease_reachable "cizixs" "nothing" 5 w hr
  have hmax : max (5 : Int) V3.minLeaseTTL = 5 := by decide
  rw [hmax] at hset
  generalize hs1 : (w.store.grant (5 * Second)).2.commitPut (turingPrefix ++ "cizixs") "nothing"
    (some (w.store.grant (5 * Second)).1) = s1 at hset
  have hr1 : s1.reachable = true := by
    rw [← hs1]
    exact hr
  have hnow : s1.now = w.store.now := by
    rw [← hs1]
    rfl
  have hf1 : s1.find (turingPrefix ++ "cizixs")
      = some ⟨turingPrefix ++ "cizixs", "nothing", w.store.revision + 1,
          some w.store.freshLeaseID⟩ := by
    rw [← hs1]
    exact find_commitPut _ _ _ _
  have hgone : (s1.advance (7 * Second)).find (turingPrefix ++ "cizixs") = none := by
    rw [← hs1]
    exact leased_put_gone _ _ _ _ _ (by decide)
  have hget1 := fun out => v3_getWinner_found "cizixs" ⟨s1, out⟩ _ hr1 hf1
  have hget2 := fun out => v3_getWinner_absent "cizixs" ⟨s1.advance (7 * Second), out⟩
    (by rw [advance_reachable]; exact hr1) hgone
  have hseg : lastSegment (turingPrefix ++ "cizixs") = "cizixs" :=
    lastSegment_turingPrefix "cizixs" (by decide)
  have h7 : ¬ (7 * Second ≤ 0) := by decide
  refine ⟨⟨s1.advance (7 * Second), _⟩, ?_, ?_, rfl⟩
  · simp only [V3.demoLease, bind_apply, hset, hget1, hget2, Option.isSome_none,
      Bool.false_eq_true, if_false, Printf, sleep_apply, h7, hseg]
    simp
    decide
  · simp only [advance_now, hnow]

/-- Run of `demoTTL` of `v2/main.go` on any reachable store in which the key is
not a directory: the key is set with a ttl of 1 s and found, the program sleeps
2 s, and the second lookup finds nothing. -/
theorem v2_demoTTL_run (w : World) (hr : w.store.reachable = true)
    (hb : V2.below w.store (turingPrefix ++ "cizixs") = []) :
    ∃ w1, V2.demoTTL w = .done () w1 ∧ w1.store.now = w.store.now + 2 * Second ∧
      w1.stdout = w.stdout ++ ["Set /turing-awards/cizixs to [nothing]\n",
        "cizixs won turing awards for nothing\n", "cizixs does not win Turing Awards\n"] := by
  have hset := v2_setWinner_ttl_reachable "cizixs" "nothing" 1 w hr hb (by decide) (by decide)
  have hb1 := below_commitPut_self (w.store.grant (1 * Second)).2 (turingPrefix ++ "cizixs")
    "nothing" (some (w.store.grant (1 * Second)).1) hb
  generalize hs1 : (w.store.grant (1 * Second)).2.commitPut (turingPrefix ++ "cizixs") "nothing"
    (some (w.store.grant (1 * Second)).1) = s1 at hset hb1
  have hr1 : s1.reachable = true := by
    rw [← hs1]
    exact hr
  have hnow : s1.now = w.store.now := by
    rw [← hs1]
    rfl
  have hf1 : s1.find (turingPrefix ++ "cizixs")
      = some ⟨turingPrefix ++ "cizixs", "nothing", w.store.revision + 1,
          some w.store.freshLeaseID⟩ := by
    rw [← hs1]
    exact find_commitPut _ _ _ _
  have hgone : (s1.advance (2 * Second)).find (turingPrefix ++ "cizixs") = none := by
    rw [← hs1]
    exact leased_put_gone _ _ _ _ _ (by decide)
  have hget1 := fun out => v2_getWinner_of_response "cizixs" ⟨s1, out⟩ _
    (v2_Get_file _ ⟨s1, out⟩ _ hr1 hb1 hf1)
  have hget2 := fun out => v2_getWinner_not_found "cizixs" ⟨s1.advance (2 * Second), out⟩
    (v2_Get_absent _ ⟨s1.advance (2 * Second), out⟩ (by rw [advance_reachable]; exact hr1)
      (below_advance s1 _ _ hb1) hgone)
  have hseg : lastSegment (turingPrefix ++ "cizixs") = "cizixs" :=
    lastSegment_turingPrefix "cizixs" (by decide)
  have h2 : ¬ (2 * Second ≤ 0) := by decide
  refine ⟨⟨s1.advance (2 * Second), _⟩, ?_, ?_, rfl⟩
  · simp only [V2.demoTTL, bind_apply, hset, hget1, hget2, Option.isSome_none,
      Bool.false_eq_true, if_false, sleep_apply, h2, hseg, pure_apply]
    simp
    decide
  · simp only [advance_now, hnow]

/-! ## The watcher of `demoWatch` in `v3/main.go` -/

theorem forEach_printf {α : Type} (xs : List α) (f : α → String) (w : World) :
    forEach xs (fun x => Printf (f x)) w
      = .done () { w with stdout := w.stdout ++ xs.map f } := by
  induction xs generalizing w with
  | nil => simp [forEach, pure_apply]
  | cons x xs ih => simp [forEach, bind_apply, Printf, ih]

theorem selectLoop_chunks (ns : List Nat) (evs : List V3.Event) (s : Store)
    (out : List String) :
    V3.selectLoop ((chunks ns evs).map (fun evs => .result ⟨evs⟩) ++ [.close]) ⟨s, out⟩
      = .done true ⟨s, out ++ (evs.take ns.sum).map V3.watchLine⟩ := by
  induction ns generalizing evs out with
  | nil => simp [chunks, V3.selectLoop, pure_apply]
  | cons n ns ih =>
    simp only [chunks, List.map_cons, List.cons_append, V3.selectLoop, bind_apply,
      forEach_printf, List.sum_cons]
    rw [List.append_eq, ih, List.take_add]
    simp

theorem runWatcher_closed (cursor : Nat) (s : Store) (ns : List Nat) :
    V3.runWatcher cursor s ns true
      = (true, ((V3.client.Watch turingPrefix cursor s).take ns.sum).map V3.watchLine) := by
  simp [V3.runWatcher, V3.watchWinners, selectLoop_chunks]

theorem advance_quiet (s : Store) (d : Int) (h : ∀ l ∈ s.leases, s.now + d < l.deadline) :
    (s.advance d).events = s.events ∧ (s.advance d).revision = s.revision := by
  have hk : (({ s with now := s.now + d } : Store)).expiredKeys = [] := by
    simp only [Store.expiredKeys, List.map_eq_nil_iff, List.filter_eq_nil_iff]
    intro e _
    cases hl : e.leaseID with
    | none => simp
    | some id =>
      simp only [List.any_eq_true, Bool.and_eq_true, beq_iff_eq, decide_eq_true_eq, not_exists,
        not_and, not_le]
      intro l hl1 _
      exact h l hl1
  simp only [Store.advance, Store.sweep, hk, List.foldl_nil, and_self]

theorem v3_demoWatch_run (batches : List Nat) (w : World) (hr : w.store.reachable = true)
    (hl : ∀ l ∈ w.store.leases, w.store.now + Millisecond * 500 < l.deadline) :
    ∃ w1, V3.demoWatch batches w = .done (none, true, demoWatchLines.take batches.sum) w1 ∧
      w1.store.events = w.store.events ++
        [⟨.PUT, "/turing-awards/Ken-Thompson", "Unix operating system", w.store.revision + 1⟩,
         ⟨.PUT, "/turing-awards/Alan-Key", "Object-Oriented Programming Languages",
           w.store.revision + 2⟩,
         ⟨.PUT, "/turing-awards/cizixs", "nothing", w.store.revision + 3⟩,
         ⟨.DELETE, "/turing-awards/cizixs", "", w.store.revision + 4⟩] := by
  obtain ⟨he0, hrev0⟩ := advance_quiet w.store (Millisecond * 500) hl
  have hr0 : (w.store.advance (Millisecond * 500)).reachable = true := by
    rw [advance_reachable]
    exact hr
  have h500 : ¬ (Millisecond * 500 ≤ 0) := by decide
  simp only [V3.demoWatch, bind_apply, sleep_apply, h500, if_false, V3.setWinners]
  generalize w.store.advance (Millisecond * 500) = s0 at he0 hrev0 hr0 ⊢
  have h1 := v3_setWinner_reachable "Ken-Thompson" "Unix operating system" ⟨s0, w.stdout⟩ hr0
  have h2 := fun out => v3_setWinner_reachable "Alan-Key" "Object-Oriented Programming Languages"
    ⟨s0.commitPut (turingPrefix ++ "Ken-Thompson") "Unix operating system" none, out⟩ hr0
  have h3 := fun out => v3_setWinner_reachable "cizixs" "nothing"
    ⟨(s0.commitPut (turingPrefix ++ "Ken-Thompson") "Unix operating system" none).commitPut
      (turingPrefix ++ "Alan-Key") "Object-Oriented Programming Languages" none, out⟩ hr0
  have h4 := fun out => v3_deleteWinner_present "cizixs"
    ⟨((s0.commitPut (turingPrefix ++ "Ken-Thompson") "Unix operating system" none).commitPut
      (turingPrefix ++ "Alan-Key") "Object-Oriented Programming Languages" none).commitPut
      (turingPrefix ++ "cizixs") "nothing" none, out⟩ _ hr0 (find_commitPut _ _ _ _)
  simp only [h1, h2, h3, h4, bind_apply, pure_apply, Option.isSome_none, Bool.false_eq_true,
    if_false, runWatcher_closed]
  have hev : ((((s0.commitPut (turingPrefix ++ "Ken-Thompson") "Unix operating system"
      none).commitPut (turingPrefix ++ "Alan-Key") "Object-Oriented Programming Languages"
      none).commitPut (turingPrefix ++ "cizixs") "nothing" none).commitDelete
      (turingPrefix ++ "cizixs")).events = w.store.events ++
        [⟨.PUT, "/turing-awards/Ken-Thompson", "Unix operating system", w.store.revision + 1⟩,
         ⟨.PUT, "/turing-awards/Alan-Key", "Object-Oriented Programming Languages",
           w.store.revision + 2⟩,
         ⟨.PUT, "/turing-awards/cizixs", "nothing", w.store.revision + 3⟩,
         ⟨.DELETE, "/turing-awards/cizixs", "", w.store.revision + 4⟩] := by
    have k1 : turingPrefix ++ "Ken-Thompson" = "/turing-awards/Ken-Thompson" := by decide
    have k2 : turingPrefix ++ "Alan-Key" = "/turing-awards/Alan-Key" := by decide
    have k3 : turingPrefix ++ "cizixs" = "/turing-awards/cizixs" := by decide
    simp only [Store.commitPut, Store.commitDelete, he0, hrev0, k1, k2, k3, List.append_assoc,
      List.singleton_append, List.cons_append, List.nil_append]
  have hwatch : (V3.client.Watch turingPrefix w.store.events.length
      ((((s0.commitPut (turingPrefix ++ "Ken-Thompson") "Unix operating system"
      none).commitPut (turingPrefix ++ "Alan-Key") "Object-Oriented Programming Languages"
      none).commitPut (turingPrefix ++ "cizixs") "nothing" none).commitDelete
      (turingPrefix ++ "cizixs"))).map V3.watchLine = demoWatchLines := by
    simp only [V3.client.Watch, hev, List.drop_left]
    rfl
  rw [List.map_take, hwatch]
  exact ⟨_, rfl, hev⟩

/-! ## The compare-and-swap of `updateWinner` -/

/-- On a reachable store `updateWinner` of `v3/main.go` swaps exactly when the
stored value equals `prev`, and otherwise leaves the store as it was. -/
theorem v3_updateWinner_cas (who prev new : String) (w : World) (h : w.store.reachable = true) :
    (w.store.valueAt (turingPrefix ++ who) = some prev →
      ∃ w1, V3.updateWinner who prev new w = .done none w1 ∧
        w1.store.valueAt (turingPrefix ++ who) = some new) ∧
    (w.store.valueAt (turingPrefix ++ who) ≠ some prev →
      ∃ w1, V3.updateWinner who prev new w = .done none w1 ∧ w1.store = w.store) := by
  constructor
  · intro hv
    exact ⟨_, v3_updateWinner_match who prev new w h hv, valueAt_commitPut _ _ _ _⟩
  · intro hv
    exact ⟨_, v3_updateWinner_mismatch who prev new w h hv, rfl⟩

/-- On a reachable store `updateWinner` of `v2/main.go` with a non-empty `prev`
swaps exactly when the stored value equals `prev`, and otherwise returns an
error and leaves the store as it was (the key not being a directory). -/
theorem v2_updateWinner_cas (who prev new : String) (w : World) (h : w.store.reachable = true)
    (hb : V2.below w.store (turingPrefix ++ who) = []) (hp : prev ≠ "") :
    (w.store.valueAt (turingPrefix ++ who) = some prev →
      ∃ w1, V2.updateWinner who prev new w = .done none w1 ∧
        w1.store.valueAt (turingPrefix ++ who) = some new) ∧
    (w.store.valueAt (turingPrefix ++ who) ≠ some prev →
      ∃ e w1, V2.updateWinner who prev new w = .done (some e) w1 ∧ w1.store = w.store) := by
  constructor
  · intro hv
    exact ⟨_, v2_updateWinner_match who prev new w h hb hv, valueAt_commitPut _ _ _ _⟩
  · intro hv
    exact ⟨_, _, v2_updateWinner_mismatch who prev new w h hb hp hv, rfl⟩

/-! ## The claims -/

/-- C1 (fails in v2): `updateWinner` is meant to write only when the stored
value equals `prev`.  In `v2/main.go` an empty `prev` is the zero `PrevValue`,
the same options `setWinner` passes, so the write is unconditional: the key
holds "WWW", differs from `prev = ""`, and is overwritten all the same. -/
theorem v2_updateWinner_empty_prev_overwrites :
    timWorld.store.valueAt (turingPrefix ++ "Tim-Berners-Lee") = some "WWW" ∧
    (some "WWW" : Option String) ≠ some "" ∧
    ∃ w1, V2.updateWinner "Tim-Berners-Lee" "" "Inventing World Wide Web" timWorld
        = .done none w1 ∧
      w1.store.valueAt (turingPrefix ++ "Tim-Berners-Lee") = some "Inventing World Wide Web" ∧
      w1.store ≠ timWorld.store := by
  refine ⟨by decide, by decide, _,
    v2_updateWinner_empty_prev _ _ timWorld rfl (by decide), ?_, ?_⟩
  · exact valueAt_commitPut _ _ _ _
  · decide

/-- C2 (fails): a compare that does not hold must come back as a non-nil error.
`updateWinner` of `v3/main.go` on the demo's own input, the key holding "WWW"
and `prev = "lisp"`, prints the failure and returns nil with the store
untouched, while `updateWinner` of `v2/main.go` returns the error. -/
theorem v3_updateWinner_failed_compare_returns_nil :
    timWorld.store.valueAt (turingPrefix ++ "Tim-Berners-Lee") ≠ some "lisp" ∧
    V3.updateWinner "Tim-Berners-Lee" "lisp" "Inventing World Wide Web" timWorld
      = .done none
        { timWorld with stdout :=
            ["Update /turing-awards/Tim-Berners-Lee to [Inventing World Wide Web]\n",
             "Set value failed: value compare error\n"] } ∧
    V2.updateWinner "Tim-Berners-Lee" "lisp" "Inventing World Wide Web" timWorld
      = .done (some (.CasFailed (some "WWW")))
        { timWorld with stdout :=
            ["Update /turing-awards/Tim-Berners-Lee to [Inventing World Wide Web]\n",
             "Set value error: CasFailed"] } := by
  refine ⟨by decide, by decide, by decide⟩

/-- C3: set followed by get is a round trip in `v3/main.go`: if
`setWinner(who, what)` returns nil and `who` has no '/', the store holds an
entry at `turingPrefix ++ who` with value `what`, and the next `getWinner(who)`
reports the winner `who` with the description `what` and returns nil. -/
theorem v3_set_then_get_roundtrip (w w1 : World) (who what : String) (hwho : '/' ∉ who.data)
    (hset : V3.setWinner who what w = .done none w1) :
    (∃ e, w1.store.find (turingPrefix ++ who) = some e ∧ e.key = turingPrefix ++ who ∧
      e.value = what) ∧
    V3.getWinner who w1 = .done none
      { w1 with stdout := w1.stdout ++ [who ++ " won turing awards for " ++ what ++ "\n"] } := by
  obtain ⟨hr, hs⟩ := v3_setWinner_success who what w w1 hset
  have hf : w1.store.find (turingPrefix ++ who)
      = some ⟨turingPrefix ++ who, what, w.store.revision + 1, none⟩ := by
    rw [hs]
    exact find_commitPut _ _ _ _
  have hr1 : w1.store.reachable = true := by
    rw [hs]
    exact hr
  exact ⟨⟨_, hf, rfl, rfl⟩, v3_getWinner_present who w1 _ hr1 hf hwho⟩

/-- Witness of C3 on the input of `demoGetSet`, from the empty store. -/
theorem v3_set_then_get_roundtrip_witness :
    (∃ e, (emptyWorld.store.commitPut "/turing-awards/john-mccarthy" "Artificial Interlligence"
        none).find (turingPrefix ++ "john-mccarthy") = some e ∧
      e.key = turingPrefix ++ "john-mccarthy" ∧ e.value = "Artificial Interlligence") ∧
    V3.getWinner "john-mccarthy"
        ⟨emptyWorld.store.commitPut "/turing-awards/john-mccarthy" "Artificial Interlligence" none,
          ["Set /turing-awards/john-mccarthy to [Artificial Interlligence]\n"]⟩
      = .done none
        ⟨emptyWorld.store.commitPut "/turing-awards/john-mccarthy" "Artificial Interlligence" none,
          ["Set /turing-awards/john-mccarthy to [Artificial Interlligence]\n",
           "john-mccarthy won turing awards for Artificial Interlligence\n"]⟩ :=
  v3_set_then_get_roundtrip emptyWorld
    ⟨emptyWorld.store.commitPut "/turing-awards/john-mccarthy" "Artificial Interlligence" none,
      ["Set /turing-awards/john-mccarthy to [Artificial Interlligence]\n"]⟩
    "john-mccarthy" "Artificial Interlligence" (by decide) (by decide)

/-- C4: looking up an absent key is not an error.  In `v3/main.go` and in
`v2/main.go` alike, after a `deleteWinner(who)` that returned nil the store
holds no entry at `turingPrefix ++ who` and the next `getWinner(who)` takes the
"does not win Turing Awards" branch and returns nil.  More generally
`getWinner(who)` returns nil on every reachable store with no entry at the
key: in v3 through the same branch; in v2 through the same branch too, unless
the key is a directory, whose node is printed with an empty description. -/
theorem getWinner_absent_key_returns_nil :
    (∀ (w w1 : World) (who : String), V3.deleteWinner who w = .done none w1 →
      w1.store.find (turingPrefix ++ who) = none ∧
      V3.getWinner who w1 = .done none
        { w1 with stdout := w1.stdout ++ [who ++ " does not win Turing Awards\n"] }) ∧
    (∀ (w : World) (who : String), w.store.reachable = true →
      w.store.find (turingPrefix ++ who) = none →
      V3.getWinner who w = .done none
        { w with stdout := w.stdout ++ [who ++ " does not win Turing Awards\n"] }) ∧
    (∀ (w w1 : World) (who : String), V2.deleteWinner who w = .done none w1 →
      w1.store.find (turingPrefix ++ who) = none ∧
      V2.getWinner who w1 = .done none
        { w1 with stdout := w1.stdout ++ [who ++ " does not win Turing Awards\n"] }) ∧
    (∀ (w : World) (who : String), w.store.reachable = true →
      w.store.find (turingPrefix ++ who) = none →
      V2.getWinner who w = .done none
        { w with stdout := w.stdout ++
            [if V2.below w.store (turingPrefix ++ who) = [] then
              who ++ " does not win Turing Awards\n"
            else
              lastSegment (turingPrefix ++ who) ++ " won turing awards for "
                ++ "" ++ "\n"] }) := by
  refine ⟨?_, ?_, ?_, ?_⟩
  · intro w w1 who h
    obtain ⟨hr, hf⟩ := v3_deleteWinner_success who w w1 h
    exact ⟨hf, v3_getWinner_absent who w1 hr hf⟩
  · intro w who hr hf
    exact v3_getWinner_absent who w hr hf
  · intro w w1 who h
    obtain ⟨hr, hf, hb⟩ := v2_deleteWinner_success who w w1 h
    exact ⟨hf, v2_getWinner_not_found who w1 (v2_Get_absent _ w1 hr hb hf)⟩
  · intro w who hr hf
    by_cases hb : V2.below w.store (turingPrefix ++ who) = []
    · rw [if_pos hb]
      exact v2_getWinner_not_found who w (v2_Get_absent _ w hr hb hf)
    · rw [if_neg hb]
      have h1 := v2_getWinner_of_response who w _ (v2_Get_directory _ w hr hb)
      simpa using h1

/-- Witness of C4 on the second half of `demoGetSet`, in both programs: the key
is deleted from a store that holds it, and the lookup that follows finds
nothing. -/
theorem getWinner_absent_key_returns_nil_witness :
    V3.getWinner "Tim-Berners-Lee"
        ⟨timWorld.store.commitDelete "/turing-awards/Tim-Berners-Lee",
          ["Delete /turing-awards/Tim-Berners-Lee \n"]⟩
      = .done none
        ⟨timWorld.store.commitDelete "/turing-awards/Tim-Berners-Lee",
          ["Delete /turing-awards/Tim-Berners-Lee \n",
           "Tim-Berners-Lee does not win Turing Awards\n"]⟩ ∧
    V2.getWinner "Tim-Berners-Lee"
        ⟨timWorld.store.commitDelete "/turing-awards/Tim-Berners-Lee",
          ["Delete /turing-awards/Tim-Berners-Lee\n"]⟩
      = .done none
        ⟨timWorld.store.commitDelete "/turing-awards/Tim-Berners-Lee",
          ["Delete /turing-awards/Tim-Berners-Lee\n",
           "Tim-Berners-Lee does not win Turing Awards\n"]⟩ :=
  ⟨(getWinner_absent_key_returns_nil.1 timWorld
      ⟨timWorld.store.commitDelete "/turing-awards/Tim-Berners-Lee",
        ["Delete /turing-awards/Tim-Berners-Lee \n"]⟩ "Tim-Berners-Lee" (by rfl)).2,
   (getWinner_absent_key_returns_nil.2.2.1 timWorld
      ⟨timWorld.store.commitDelete "/turing-awards/Tim-Berners-Lee",
        ["Delete /turing-awards/Tim-Berners-Lee\n"]⟩ "Tim-Berners-Lee" (by rfl)).2⟩

/-- C5 (fails): a failed lease grant must come back as a non-nil error.
Whenever `client.Grant` fails on the store (nil response, non-nil error),
`setWinnerWithLease` of `v3/main.go` prints "Unable to create lease", goes on
to read `resp.ID` of the nil response and panics: it returns no error at all.
The key is not written. -/
theorem v3_setWinnerWithLease_failed_grant_panics (who what : String) (ttl : Int)
    (w w1 : World) (e : GoError) (h : V3.client.Grant ttl w = .done (none, some e) w1) :
    (∃ w2, V3.setWinnerWithLease who what ttl w = .panicked w2 ∧ w2.store = w.store) ∧
    ∀ (r : Option GoError) (w2 : World), V3.setWinnerWithLease who what ttl w ≠ .done r w2 := by
  have hr := v3_Grant_error_unreachable ttl w w1 none e h
  rw [v3_setWinnerWithLease_unreachable who what ttl w hr]
  exact ⟨⟨_, rfl, rfl⟩, fun r w2 hc => by simp at hc⟩

/-- Witness of C5: the input of `demoLease` when the store cannot be reached. -/
theorem v3_setWinnerWithLease_failed_grant_panics_witness :
    (∃ w2, V3.setWinnerWithLease "cizixs" "nothing" 5 downWorld = .panicked w2 ∧
      w2.store = downWorld.store) ∧
    ∀ (r : Option GoError) (w2 : World),
      V3.setWinnerWithLease "cizixs" "nothing" 5 downWorld ≠ .done r w2 :=
  v3_setWinnerWithLease_failed_grant_panics "cizixs" "nothing" 5 downWorld downWorld
    .Unavailable (by decide)

/-- C8 as stated fails: under the interleaving in which the `select` loop has
received three responses of one event each when it selects `closeCh`,
`watchWinners` of `v3/main.go` returns having reported the three puts only;
the delete of "cizixs", the fourth mutation of `demoWatch`, is not reported. -/
theorem v3_demoWatch_close_before_delete :
    ∃ w1, V3.demoWatch [1, 1, 1] emptyWorld = .done (none, true, demoWatchLines.take 3) w1 ∧
      w1.store.events.length = 4 ∧ (demoWatchLines.take 3).length = 3 ∧
      "Event received: DELETE \"/turing-awards/cizixs\": \"\"\n" ∉ demoWatchLines.take 3 := by
  refine ⟨_, rfl, by decide, by decide, by decide⟩

/-- C8 (amended): with the watch on `turingPrefix` in place before any mutation
(what the 500 ms wait is for) and no lease expiring meanwhile, for every
interleaving of the watcher goroutine with `demoWatch`, `watchWinners` of
`v3/main.go` returns on `closeCh` and what it has reported by then is a prefix
of the events of the 4 mutations of `demoWatch` (3 puts, then the delete of
"cizixs"): in mutation order, with no gaps and no duplicates.  All 4 are
reported exactly when the `select` loop has received them all before it
selects `closeCh`. -/
theorem v3_demoWatch_reports_prefix (batches : List Nat) (w : World)
    (hr : w.store.reachable = true)
    (hl : ∀ l ∈ w.store.leases, w.store.now + Millisecond * 500 < l.deadline) :
    ∃ w1 lines, V3.demoWatch batches w = .done (none, true, lines) w1 ∧
      lines = demoWatchLines.take batches.sum ∧
      lines <+: demoWatchLines ∧ demoWatchLines.Nodup ∧
      (lines = demoWatchLines ↔ 4 ≤ batches.sum) ∧
      w1.store.events = w.store.events ++
        [⟨.PUT, "/turing-awards/Ken-Thompson", "Unix operating system", w.store.revision + 1⟩,
         ⟨.PUT, "/turing-awards/Alan-Key", "Object-Oriented Programming Languages",
           w.store.revision + 2⟩,
         ⟨.PUT, "/turing-awards/cizixs", "nothing", w.store.revision + 3⟩,
         ⟨.DELETE, "/turing-awards/cizixs", "", w.store.revision + 4⟩] := by
  obtain ⟨w1, h1, h2⟩ := v3_demoWatch_run batches w hr hl
  refine ⟨w1, _, h1, rfl, List.take_prefix _ _, by decide, ?_, h2⟩
  rw [List.take_eq_self_iff]
  rfl

/-- Witness of C8 (amended): from the empty store, when the loop has received
two responses of two events each, all four events are reported. -/
theorem v3_demoWatch_reports_prefix_witness :
    ∃ w1 lines, V3.demoWatch [2, 2] emptyWorld = .done (none, true, lines) w1 ∧
      lines = demoWatchLines.take [2, 2].sum ∧
      lines <+: demoWatchLines ∧ demoWatchLines.Nodup ∧
      (lines = demoWatchLines ↔ 4 ≤ [2, 2].sum) ∧
      w1.store.events = emptyWorld.store.events ++
        [⟨.PUT, "/turing-awards/Ken-Thompson", "Unix operating system",
           emptyWorld.store.revision + 1⟩,
         ⟨.PUT, "/turing-awards/Alan-Key", "Object-Oriented Programming Languages",
           emptyWorld.store.revision + 2⟩,
         ⟨.PUT, "/turing-awards/cizixs", "nothing", emptyWorld.store.revision + 3⟩,
         ⟨.DELETE, "/turing-awards/cizixs", "", emptyWorld.store.revision + 4⟩] :=
  v3_demoWatch_reports_prefix [2, 2] emptyWorld (by decide) (by decide)

/-- C9 (fails): when the commit of the transaction returns an error, and so a
nil response, `updateWinner` of `v3/main.go` prints the error and still reads
`resp.Succeeded`: it panics on the nil response and does not return the
error. -/
theorem v3_updateWinner_commit_error_panics (who prev new : String) (w w1 : World)
    (e : GoError)
    (h : V3.client.TxnIfValueEqThenPut (turingPrefix ++ who) prev new w
      = .done (none, some e) w1) :
    (∃ w2, V3.updateWinner who prev new w = .panicked w2 ∧ w2.store = w.store) ∧
    ∀ (r : Option GoError) (w2 : World), V3.updateWinner who prev new w ≠ .done r w2 := by
  have hr := v3_Txn_error_unreachable _ prev new w w1 none e h
  rw [v3_updateWinner_unreachable who prev new w hr]
  exact ⟨⟨_, rfl, rfl⟩, fun r w2 hc => by simp at hc⟩

/-- Witness of C9: the second update of `demoTransaction` when the store cannot
be reached. -/
theorem v3_updateWinner_commit_error_panics_witness :
    (∃ w2, V3.updateWinner "Tim-Berners-Lee" "WWW" "Inventing World Wide Web" downWorld
        = .panicked w2 ∧ w2.store = downWorld.store) ∧
    ∀ (r : Option GoError) (w2 : World),
      V3.updateWinner "Tim-Berners-Lee" "WWW" "Inventing World Wide Web" downWorld
        ≠ .done r w2 :=
  v3_updateWinner_commit_error_panics "Tim-Berners-Lee" "WWW" "Inventing World Wide Web"
    downWorld downWorld .Unavailable (by decide)

/-- C10: the winner name that `getWinner` and `getWinners` derive from a key is
well defined and is the key's last path segment.  For every key,
`strings.Split(key, "/")` is non-empty, `tokens[len(tokens)-1]` never panics
and selects the last path segment of the key, which contains no '/'; for
`key = turingPrefix ++ who` with no '/' in `who` it is `who`.  `getWinner` of
`v3/main.go` and of `v2/main.go` print that segment of the key they were
answered with, and `getWinners` of `v2/main.go` prints it for every node of
the listing; none of them panics on the index. -/
theorem winner_name_is_last_segment :
    (∀ key : String, Split key '/' ≠ [] ∧
      (∀ w, index (Split key '/') (((Split key '/').length : Int) - 1) w
        = .done (lastSegment key) w) ∧
      '/' ∉ (lastSegment key).data) ∧
    (∀ who : String, '/' ∉ who.data → lastSegment (turingPrefix ++ who) = who) ∧
    (∀ (w : World) (who : String) (e : Entry), w.store.reachable = true →
      w.store.find (turingPrefix ++ who) = some e →
      V3.getWinner who w = .done none
        { w with stdout := w.stdout ++
            [lastSegment e.key ++ " won turing awards for " ++ e.value ++ "\n"] }) ∧
    (∀ (w : World) (who : String) (r : V2.Response),
      V2.client.Get (turingPrefix ++ who) w = .done (some r, none) w →
      V2.getWinner who w = .done none
        { w with stdout := w.stdout ++
            [lastSegment r.Node.Key ++ " won turing awards for " ++ r.Node.Value ++ "\n"] }) ∧
    (∀ (w : World) (r : V2.Response),
      V2.client.Get turingPrefix w = .done (some r, none) w →
      V2.getWinners w = .done none
        { w with stdout := w.stdout ++ r.Node.Nodes.map (fun node =>
            lastSegment node.Key ++ " won turing awards for " ++ node.Value ++ "\n") }) := by
  refine ⟨fun key => ⟨Split_ne_nil key '/', fun w => index_last _ _ (Split_getLast_eq key) w,
    lastSegment_no_slash key⟩, lastSegment_turingPrefix, ?_, ?_, ?_⟩
  · intro w who e hr hf
    exact v3_getWinner_found who w e hr hf
  · intro w who r hr
    exact v2_getWinner_of_response who w r hr
  · intro w r hr
    exact v2_getWinners_of_response w r hr

/-- Witness of C10 on the keys of `demoPrefix` and `demoDir`: the listing of
the two winners prints their names. -/
theorem winner_name_is_last_segment_witness :
    lastSegment (turingPrefix ++ "Knuth") = "Knuth" ∧
    V3.getWinner "Tim-Berners-Lee" timWorld = .done none
      { timWorld with stdout := ["Tim-Berners-Lee won turing awards for WWW\n"] } ∧
    V2.getWinner "Tim-Berners-Lee" timWorld = .done none
      { timWorld with stdout := ["Tim-Berners-Lee won turing awards for WWW\n"] } ∧
    V2.getWinners dirWorld = .done none
      { dirWorld with stdout := ["Dijkstra won turing awards for Programming Languages\n",
          "Knuth won turing awards for analysis of algorithms\n"] } :=
  ⟨winner_name_is_last_segment.2.1 "Knuth" (by decide),
   winner_name_is_last_segment.2.2.1 timWorld "Tim-Berners-Lee"
     ⟨"/turing-awards/Tim-Berners-Lee", "WWW", 1, none⟩ (by rfl) (by rfl),
   winner_name_is_last_segment.2.2.2.1 timWorld "Tim-Berners-Lee"
     ⟨"get", ⟨"/turing-awards/Tim-Berners-Lee", "WWW", 1, []⟩⟩ (by rfl),
   winner_name_is_last_segment.2.2.2.2 dirWorld
     ⟨"get", ⟨"/turing-awards/", "", 0,
       [⟨"/turing-awards/Dijkstra", "Programming Languages"⟩,
        ⟨"/turing-awards/Knuth", "analysis of algorithms"⟩]⟩⟩ (by rfl)⟩

/-- C7 as stated fails for `num = 0`: `watchWinners(0)` of `v2/main.go` takes a
result before it first compares `count` with `num`, so on a stream that never
fails it consumes one event, not zero. -/
theorem v2_watchWinners_zero_takes_one :
    ∃ wt w1, V2.watchWinners 0 steadyResults emptyWorld = .done (none, wt) w1 ∧
      wt.taken = 1 ∧ wt.taken ≠ 0 := by
  have h := v2_watchLoop_last 0 0 ⟨steadyResults, 0⟩
    { emptyWorld with stdout := emptyWorld.stdout ++ ["Watch all winners\n"] } _ rfl (by decide)
  exact ⟨_, _, h, rfl, by decide⟩

/-- C7 (amended): for every `num ≥ 1` and every watch stream whose `Next` calls
do not fail, `watchWinners(num)` of `v2/main.go` consumes exactly `num` events
and then returns nil, leaving the store as it was. -/
theorem v2_watchWinners_takes_num (num : Int)
    (results : Nat → Option V2.Response × Option GoError) (w : World) (hnum : 1 ≤ num)
    (hok : ∀ i, ∃ r, results i = (some r, none)) :
    ∃ w1, V2.watchWinners num results w = .done (none, ⟨results, num.toNat⟩) w1 ∧
      w1.store = w.store := by
  obtain ⟨w1, h1, h2⟩ := v2_watchLoop_takes results hok num (num.toNat - 1) 0 0
    { w with stdout := w.stdout ++ ["Watch all winners\n"] } (by omega)
  refine ⟨w1, ?_, h2⟩
  simp only [V2.watchWinners, bind_apply, Printf, V2.client.Watcher]
  rw [h1]
  congr 3
  omega

/-- Witness of C7 (amended) on the call of `demoWatch`, `watchWinners(2)`. -/
theorem v2_watchWinners_takes_num_witness :
    ∃ w1, V2.watchWinners 2 steadyResults emptyWorld = .done (none, ⟨steadyResults, 2⟩) w1 ∧
      w1.store = emptyWorld.store :=
  v2_watchWinners_takes_num 2 steadyResults emptyWorld (by decide) (fun _ => ⟨_, rfl⟩)


/-- C6 as stated fails.  In `v2/main.go` a ttl whose count of nanoseconds does
not fit a `time.Duration` gives no time-to-live at all:
`setWinner("cizixs", "nothing", 9223372037)` computes a negative `TTL`, the key
is written without one, and a `getWinner` issued after those 9223372037
seconds still finds it.  In `v3/main.go` the time a key stays depends on the
ttl and not on the wait of the demo: with a ttl of 10 s the key is still found
after the 7 s that `demoLease` waits, and with a ttl of 1 s, below the minimal
ttl of a lease, it is still found after 2 s. -/
theorem ttl_key_found_after_wait :
    (0 : Int) < 9223372037 ∧ wrapInt64 (9223372037 * Second) < 0 ∧
    V2.setWinner "cizixs" "nothing" 9223372037 emptyWorld = .done none
      ⟨emptyWorld.store.commitPut "/turing-awards/cizixs" "nothing" none,
        ["Set /turing-awards/cizixs to [nothing]\n"]⟩ ∧
    (Sleep (9223372037 * Second) >>= fun _ => V2.getWinner "cizixs")
        ⟨emptyWorld.store.commitPut "/turing-awards/cizixs" "nothing" none,
          ["Set /turing-awards/cizixs to [nothing]\n"]⟩
      = .done none
        ⟨(emptyWorld.store.commitPut "/turing-awards/cizixs" "nothing" none).advance
            (9223372037 * Second),
          ["Set /turing-awards/cizixs to [nothing]\n",
           "cizixs won turing awards for nothing\n"]⟩ ∧
    V3.setWinnerWithLease "cizixs" "nothing" 10 emptyWorld = .done none
      ⟨(emptyWorld.store.grant (10 * Second)).2.commitPut "/turing-awards/cizixs" "nothing"
        (some 1), ["Set /turing-awards/cizixs to [nothing] with lease 10\n"]⟩ ∧
    (Sleep (7 * Second) >>= fun _ => V3.getWinner "cizixs")
        ⟨(emptyWorld.store.grant (10 * Second)).2.commitPut "/turing-awards/cizixs" "nothing"
          (some 1), ["Set /turing-awards/cizixs to [nothing] with lease 10\n"]⟩
      = .done none
        ⟨((emptyWorld.store.grant (10 * Second)).2.commitPut "/turing-awards/cizixs" "nothing"
            (some 1)).advance (7 * Second),
          ["Set /turing-awards/cizixs to [nothing] with lease 10\n",
           "cizixs won turing awards for nothing\n"]⟩ ∧
    V3.setWinnerWithLease "cizixs" "nothing" 1 emptyWorld = .done none
      ⟨(emptyWorld.store.grant (5 * Second)).2.commitPut "/turing-awards/cizixs" "nothing"
        (some 1), ["Set /turing-awards/cizixs to [nothing] with lease 1\n"]⟩ ∧
    (Sleep (2 * Second) >>= fun _ => V3.getWinner "cizixs")
        ⟨(emptyWorld.store.grant (5 * Second)).2.commitPut "/turing-awards/cizixs" "nothing"
          (some 1), ["Set /turing-awards/cizixs to [nothing] with lease 1\n"]⟩
      = .done none
        ⟨((emptyWorld.store.grant (5 * Second)).2.commitPut "/turing-awards/cizixs" "nothing"
            (some 1)).advance (2 * Second),
          ["Set /turing-awards/cizixs to [nothing] with lease 1\n",
           "cizixs won turing awards for nothing\n"]⟩ := by
  refine ⟨by decide, by decide, by rfl, by rfl, by rfl, by rfl, by rfl, by rfl⟩

/-- C6 (amended): a key written with a time-to-live is present until the
time-to-live has passed and gone from then on.  For every who, what and
`ttl > 0`, after a successful `setWinnerWithLease(who, what, ttl)` (v3, where
the lease lasts `max(ttl, 5)` seconds, 5 s being the minimal ttl) or
`setWinner(who, what, ttl)` (v2, with `ttl` seconds fitting a
`time.Duration`), a `getWinner(who)` issued after a sleep shorter than the
time-to-live finds the entry, and one issued after a sleep of the time-to-live
or more finds none.  Each demo waits longer than the ttl it set before its
second lookup: `demoLease` sets 5 s and sleeps 7 s, `demoTTL` sets 1 s and
sleeps 2 s; the first lookup finds the key and the second finds nothing. -/
theorem ttl_key_present_then_gone :
    (∀ (w w1 : World) (who what : String) (ttl : Int), 0 < ttl →
      V3.setWinnerWithLease who what ttl w = .done none w1 →
      (∀ d : Int, d < max ttl V3.minLeaseTTL * Second →
        (Sleep d >>= fun _ => V3.getWinner who) w1 = .done none
          { store := if d ≤ 0 then w1.store else w1.store.advance d
            stdout := w1.stdout ++ [lastSegment (turingPrefix ++ who)
              ++ " won turing awards for " ++ what ++ "\n"] }) ∧
      (∀ d : Int, max ttl V3.minLeaseTTL * Second ≤ d →
        (Sleep d >>= fun _ => V3.getWinner who) w1 = .done none
          { store := w1.store.advance d
            stdout := w1.stdout ++ [who ++ " does not win Turing Awards\n"] })) ∧
    (∀ (w w1 : World) (who what : String) (ttl : Int), 0 < ttl → ttl * Second < 2 ^ 63 →
      V2.setWinner who what ttl w = .done none w1 →
      (∀ d : Int, d < ttl * Second →
        (Sleep d >>= fun _ => V2.getWinner who) w1 = .done none
          { store := if d ≤ 0 then w1.store else w1.store.advance d
            stdout := w1.stdout ++ [lastSegment (turingPrefix ++ who)
              ++ " won turing awards for " ++ what ++ "\n"] }) ∧
      (∀ d : Int, ttl * Second ≤ d →
        (Sleep d >>= fun _ => V2.getWinner who) w1 = .done none
          { store := w1.store.advance d
            stdout := w1.stdout ++ [who ++ " does not win Turing Awards\n"] })) ∧
    (∀ w : World, w.store.reachable = true →
      ∃ w1, V3.demoLease w = .done none w1 ∧ w1.store.now = w.store.now + 7 * Second ∧
        5 * Second < 7 * Second ∧
        w1.stdout = w.stdout ++ ["Set /turing-awards/cizixs to [nothing] with lease 5\n",
          "cizixs won turing awards for nothing\n", "wait for lease to expire...\n",
          "cizixs does not win Turing Awards\n"]) ∧
    (∀ w : World, w.store.reachable = true →
      V2.below w.store (turingPrefix ++ "cizixs") = [] →
      ∃ w1, V2.demoTTL w = .done () w1 ∧ w1.store.now = w.store.now + 2 * Second ∧
        1 * Second < 2 * Second ∧
        w1.stdout = w.stdout ++ ["Set /turing-awards/cizixs to [nothing]\n",
          "cizixs won turing awards for nothing\n", "cizixs does not win Turing Awards\n"]) := by
  refine ⟨?_, ?_, ?_, ?_⟩
  · intro w w1 who what ttl _ hset
    obtain ⟨hr, hw1⟩ := v3_setWinnerWithLease_success who what ttl w w1 hset
    have hpos := minLease_pos ttl
    subst hw1
    constructor
    · intro d hd
      exact v3_lookup_after_sleep_found _ _ who
        ⟨turingPrefix ++ who, what, w.store.revision + 1, some w.store.freshLeaseID⟩ d hr
        (find_commitPut _ _ _ _) (leased_put_present _ _ _ _ d hd)
    · intro d hd
      exact v3_lookup_after_sleep_absent _ _ who d hr (by omega)
        (leased_put_gone _ _ _ _ d hd)
  · intro w w1 who what ttl httl hfit hset
    obtain ⟨hr, hb, hw1⟩ := v2_setWinner_ttl_success who what ttl w w1 httl hfit hset
    have hpos : 0 < ttl * Second := by
      unfold Second
      omega
    have hb1 := below_commitPut_self (w.store.grant (ttl * Second)).2 (turingPrefix ++ who)
      what (some (w.store.grant (ttl * Second)).1) hb
    subst hw1
    constructor
    · intro d hd
      exact v2_lookup_after_sleep_found _ _ who
        ⟨turingPrefix ++ who, what, w.store.revision + 1, some w.store.freshLeaseID⟩ d hr hb1
        (find_commitPut _ _ _ _) (leased_put_present _ _ _ _ d hd)
    · intro d hd
      exact v2_lookup_after_sleep_absent _ _ who d hr hb1 (by omega)
        (leased_put_gone _ _ _ _ d hd)
  · intro w hr
    obtain ⟨w1, h1, h2, h3⟩ := v3_demoLease_run w hr
    exact ⟨w1, h1, h2, by decide, h3⟩
  · intro w hr hb
    obtain ⟨w1, h1, h2, h3⟩ := v2_demoTTL_run w hr hb
    exact ⟨w1, h1, h2, by decide, h3⟩

/-- Witness of C6 (amended) on the input of `demoLease`: from the empty store
the key set with a lease of 5 s is found after 4 s and gone after 7 s. -/
theorem ttl_key_present_then_gone_witness :
    (Sleep (4 * Second) >>= fun _ => V3.getWinner "cizixs")
        ⟨(emptyWorld.store.grant (5 * Second)).2.commitPut "/turing-awards/cizixs" "nothing"
          (some 1), ["Set /turing-awards/cizixs to [nothing] with lease 5\n"]⟩
      = .done none
        ⟨((emptyWorld.store.grant (5 * Second)).2.commitPut "/turing-awards/cizixs" "nothing"
            (some 1)).advance (4 * Second),
          ["Set /turing-awards/cizixs to [nothing] with lease 5\n",
           "cizixs won turing awards for nothing\n"]⟩ ∧
    (Sleep (7 * Second) >>= fun _ => V3.getWinner "cizixs")
        ⟨(emptyWorld.store.grant (5 * Second)).2.commitPut "/turing-awards/cizixs" "nothing"
          (some 1), ["Set /turing-awards/cizixs to [nothing] with lease 5\n"]⟩
      = .done none
        ⟨((emptyWorld.store.grant (5 * Second)).2.commitPut "/turing-awards/cizixs" "nothing"
            (some 1)).advance (7 * Second),
          ["Set /turing-awards/cizixs to [nothing] with lease 5\n",
           "cizixs does not win Turing Awards\n"]⟩ :=
  ⟨(ttl_key_present_then_gone.1 emptyWorld
      ⟨(emptyWorld.store.grant (5 * Second)).2.commitPut "/turing-awards/cizixs" "nothing"
        (some 1), ["Set /turing-awards/cizixs to [nothing] with lease 5\n"]⟩
      "cizixs" "nothing" 5 (by decide) (by rfl)).1 (4 * Second) (by decide),
   (ttl_key_present_then_gone.1 emptyWorld
      ⟨(emptyWorld.store.grant (5 * Second)).2.commitPut "/turing-awards/cizixs" "nothing"
        (some 1), ["Set /turing-awards/cizixs to [nothing] with lease 5\n"]⟩
      "cizixs" "nothing" 5 (by decide) (by rfl)).2 (7 * Second) (by decide)⟩

/-- Trace of `demoTransaction` of `v3/main.go` from the empty store: the first
update, with the wrong previous value, prints the compare failure and changes
nothing; the second one swaps the value. -/
theorem v3_demoTransaction_trace :
    ∃ w1, V3.demoTransaction emptyWorld = .done none w1 ∧
      w1.store.valueAt (turingPrefix ++ "Tim-Berners-Lee") = some "Inventing World Wide Web" ∧
      w1.stdout = ["Set /turing-awards/Tim-Berners-Lee to [WWW]\n",
        "Update /turing-awards/Tim-Berners-Lee to [Inventing World Wide Web]\n",
        "Set value failed: value compare error\n",
        "Tim-Berners-Lee won turing awards for WWW\n",
        "Update /turing-awards/Tim-Berners-Lee to [Inventing World Wide Web]\n",
        "Tim-Berners-Lee won turing awards for Inventing World Wide Web\n"] := by
  refine ⟨_, rfl, by decide, by decide⟩

/-- Trace of `demoGetSet` of `v3/main.go` from the empty store. -/
theorem v3_demoGetSet_trace :
    ∃ w1, V3.demoGetSet emptyWorld = .done none w1 ∧
      w1.store.entries = [] ∧
      w1.stdout = ["Set /turing-awards/john-mccarthy to [Artificial Interlligence]\n",
        "john-mccarthy won turing awards for Artificial Interlligence\n",
        "Delete /turing-awards/john-mccarthy \n",
        "john-mccarthy does not win Turing Awards\n"] := by
  refine ⟨_, rfl, by decide, by decide⟩

end EtcdDemo

